import Mathlib

/-!
Verification of the MarkovChain distribution
(tensorflow_probability/python/distributions/markov_chain.py).

Shallow embedding conventions:
* A tensor is a shape (list of dimension extents) together with row-major
  flat data over exact rationals; floating point is modelled by exact
  arithmetic, so "within tolerance" statements become exact equalities.
* A structured state (a nest of tensors) is modelled by its flattened list
  of leaves, in nest.flatten order.
* A distribution (the external Distribution collaborator) is a record of
  pure functions: sample, experimental_sample_and_log_prob, log_prob, and
  its static per-leaf event shapes.
* The seed-splitting collaborator (samplers.split_seed with n=2) is a pure
  deterministic function of the seed.
* Fallible code (the static shape check in log_prob) returns Except.
All shapes carried by tensors in this model are fully known; the
static/unknown-shape behavior of the helper assert_same_shape is modelled
separately on optional shapes.
-/

/-- A tensor: row-major flat rational data together with its shape.
Models a tf.Tensor with fully known shape. -/
structure Tensor where
  shape : List ℕ
  data : List ℚ
deriving DecidableEq, Repr

/-- Default tensor (used only as a getD fallback, like nest flattening
of an empty structure). -/
def dT : Tensor := ⟨[], []⟩

/-- Reindexing core of move_dimension: element j of the result is element
f j of the input data (row-major index translation). -/
def reindex (n : ℕ) (f : ℕ → ℕ) (d : List ℚ) : List ℚ :=
  (List.range n).map (fun j => d.getD (f j) 0)

/-- distribution_util.move_dimension(t, k, 0): move the axis at (resolved
nonnegative) position k of t to the front. Shapes A ++ m :: B with
A = shape.take k become m :: A ++ B; flat data is permuted accordingly. -/
def moveDimTo0 (k : ℕ) (t : Tensor) : Tensor :=
  let m := t.shape.getD k 1
  let A := t.shape.take k
  let B := t.shape.drop (k + 1)
  let pA := A.prod
  let pB := B.prod
  ⟨m :: (A ++ B),
   reindex (m * (pA * pB))
     (fun j => ((j / pB) % pA * m + j / pB / pA) * pB + j % pB) t.data⟩

/-- distribution_util.move_dimension(t, 0, k): move the leading axis of t
to (resolved nonnegative) position k. Shape m :: rest becomes
rest.take k ++ m :: rest.drop k; flat data is permuted accordingly. -/
def moveDim0To (k : ℕ) (t : Tensor) : Tensor :=
  let m := t.shape.headD 1
  let rest := t.shape.tail
  let A := rest.take k
  let B := rest.drop k
  let pA := A.prod
  let pB := B.prod
  ⟨A ++ m :: B,
   reindex (pA * (m * pB))
     (fun j => ((j / pB) % m * pA + j / pB / m) * pB + j % pB) t.data⟩

/-- distribution_util.move_dimension(t, source, dest), restricted to the
two invocation patterns MarkovChain uses (source = 0 or dest = 0);
negative indices are resolved against the rank, as in the library. -/
def move_dimension (t : Tensor) (source dest : ℤ) : Tensor :=
  let r : ℤ := t.shape.length
  let s := if source < 0 then source + r else source
  let d := if dest < 0 then dest + r else dest
  if s = 0 then moveDim0To d.toNat t
  else if d = 0 then moveDimTo0 s.toNat t
  else t

/-- Python t[i] for a tensor: the i-th slice along the leading axis;
drops the leading axis. -/
def sliceAt0 (t : Tensor) (i : ℕ) : Tensor :=
  ⟨t.shape.tail, (t.data.drop (i * t.shape.tail.prod)).take t.shape.tail.prod⟩

/-- Python t[:k] for a tensor: the first k slices along the leading axis. -/
def slice0To (t : Tensor) (k : ℕ) : Tensor :=
  ⟨min k (t.shape.headD 0) :: t.shape.tail, t.data.take (k * t.shape.tail.prod)⟩

/-- Python t[1:n] for a tensor: slices 1,...,n-1 along the leading axis. -/
def slice1To (t : Tensor) (n : ℕ) : Tensor :=
  ⟨(min n (t.shape.headD 0) - 1) :: t.shape.tail,
   (t.data.drop t.shape.tail.prod).take ((n - 1) * t.shape.tail.prod)⟩

/-- tf.stack / the concat of newaxis-ed slices: stack tensors (all of one
shape) along a new leading axis. The shape is read off the first element,
as tf.concat reads the common shape. -/
def stackT (ts : List Tensor) : Tensor :=
  ⟨ts.length :: (ts.headD dT).shape, (ts.map Tensor.data).flatten⟩

/-- Stack with an explicitly given element shape (used to state what a
batched log_prob of element-batch-shape sh returns, also when the stack
is empty). -/
def stackTsh (sh : List ℕ) (ts : List Tensor) : Tensor :=
  ⟨ts.length :: sh, (ts.map Tensor.data).flatten⟩

/-- Elementwise addition of two same-shaped tensors (tf broadcasting-free
add, as used after the shape assertion). -/
def tadd (x y : Tensor) : Tensor :=
  ⟨x.shape, List.zipWith (· + ·) x.data y.data⟩

/-- Elementwise subtraction of two same-shaped tensors. -/
def tsub (x y : Tensor) : Tensor :=
  ⟨x.shape, List.zipWith (· - ·) x.data y.data⟩

/-- Column i of a tensor viewed as a stack of slices along axis 0: the
entries at flat position i of each slice. -/
def tcol (t : Tensor) (i : ℕ) : List ℚ :=
  (List.range (t.shape.headD 0)).map
    (fun r => t.data.getD (r * t.shape.tail.prod + i) 0)

/-- tf.reduce_sum(t, axis=0): plain summation along the leading axis. -/
def reduceSum0 (t : Tensor) : Tensor :=
  ⟨t.shape.tail, (List.range t.shape.tail.prod).map (fun i => (tcol t i).sum)⟩

/-- One step of Kahan (compensated) summation: carry a running total and
a round-off compensation term. -/
def kahanStep (tc : ℚ × ℚ) (x : ℚ) : ℚ × ℚ :=
  let y := x - tc.2
  let s := tc.1 + y
  (s, (s - tc.1) - y)

/-- Kahan summation of a list, returning (total, compensation). -/
def kahanList (l : List ℚ) : ℚ × ℚ := l.foldl kahanStep (0, 0)

/-- tfp_math.reduce_kahan_sum(t, axis=0).value: compensated summation
along the leading axis. -/
def reduceKahan0 (t : Tensor) : Tensor :=
  ⟨t.shape.tail, (List.range t.shape.tail.prod).map (fun i => (kahanList (tcol t i)).1)⟩

/-- Elementwise sum of a list of tensors of common shape sh (the
mathematical sum over the step index used to state the claims). -/
def sumTensors (sh : List ℕ) (ts : List Tensor) : Tensor :=
  ⟨sh, (List.range sh.prod).map (fun i => (ts.map (fun t => t.data.getD i 0)).sum)⟩

/-- A scalar (rank-0) integer tensor, as passed for the step argument in
sampling mode. -/
def idxScalar (t : ℕ) : Tensor := ⟨[], [(t : ℚ)]⟩

/-- tf.range(k): the rank-1 tensor of step indices 0,...,k-1, as passed
for the step argument in vectorized density-evaluation mode. -/
def idxRange (k : ℕ) : Tensor := ⟨[k], (List.range k).map (fun i => (i : ℚ))⟩

/-- Models the seed-splitting collaborator samplers.split_seed(seed, n=2):
a pure, deterministic function producing two child seeds. -/
def split_seed (s : ℕ) : ℕ × ℕ := (2 * s + 1, 2 * s + 2)

/-- A structured state: the flattened list of tensor leaves of the nest. -/
abbrev State := List Tensor

/-- The external Distribution collaborator: pure sample, combined
experimental_sample_and_log_prob, log_prob, and static per-leaf event
shapes. The first sample argument is the sample shape (transitions are
sampled with the default scalar sample shape, modelled as []). -/
structure Distn where
  sample : List ℕ → ℕ → State
  sampleAndLogProb : List ℕ → ℕ → State × Tensor
  logProb : State → Tensor
  event_shape : List (List ℕ)

/-- The MarkovChain distribution: the immutable chain specification. -/
structure MarkovChain where
  initial_state_prior : Distn
  transition_fn : Tensor → State → Distn
  num_steps : ℕ
  experimental_use_kahan_sum : Bool
  validate_args : Bool

/-- MarkovChain._step_axes: per leaf, the index of the num_steps axis as
a negative integer -(1 + event rank of the leaf). -/
def step_axes (c : MarkovChain) : List ℤ :=
  c.initial_state_prior.event_shape.map (fun es => -(1 + (es.length : ℤ)))

/-- MarkovChain._sum_fn: Kahan-compensated or plain reduction along
axis 0, selected by the experimental_use_kahan_sum flag. -/
def sum_fn (c : MarkovChain) (t : Tensor) : Tensor :=
  if c.experimental_use_kahan_sum then reduceKahan0 t else reduceSum0 t

/-- The per-leaf move of the step axis to the front performed at the top
of MarkovChain._log_prob_parts. -/
def movedLeaves (c : MarkovChain) (x : State) : State :=
  List.zipWith (fun t ax => move_dimension t ax 0) x (step_axes c)

/-- MarkovChain._log_prob_parts: the prior log-prob of the step-0 slice,
and the elementwise transition log-probs from one single vectorized
transition call over steps 0..n-2. -/
def log_prob_parts (c : MarkovChain) (x : State) : Tensor × Tensor :=
  let xm := movedLeaves c x
  let prior_lp := c.initial_state_prior.logProb (xm.map (fun sp => sliceAt0 sp 0))
  let n := (xm.headD dT).shape.headD 0
  (prior_lp,
   (c.transition_fn (idxRange (n - 1)) (xm.map (fun sp => slice0To sp (n - 1)))).logProb
     (xm.map (fun sp => slice1To sp n)))

/-- MarkovChain._log_prob: sum the transition log-probs along the step
axis, assert that the summed shape matches the prior log-prob shape (a
hard static failure in this fully-known-shape model), and add. -/
def log_prob (c : MarkovChain) (x : State) : Except String Tensor :=
  let p := log_prob_parts c x
  let transition_lp := sum_fn c p.2
  if p.1.shape = transition_lp.shape then Except.ok (tadd p.1 transition_lp)
  else Except.error "transition log_prob shape does not match prior log_prob shape"

/-- tf.scan specialized to MarkovChain use: fold the loop body over the
step indices, collecting the result component of each new carry. -/
def scanResults {α : Type} (f : ℕ × α → ℕ → ℕ × α) : ℕ × α → List ℕ → List α
  | _, [] => []
  | carry, e :: es =>
    let c2 := f carry e
    c2.2 :: scanResults f c2 es

/-- _make_sample_loop_body(transition_fn, 'sample'): split the loop seed
into a step seed and the continuation seed, then sample the transition
distribution at step - 1 with the previous state. -/
def sample_loop_body (c : MarkovChain) (carry : ℕ × State) (step : ℕ) : ℕ × State :=
  let sp := split_seed carry.1
  (sp.2, (c.transition_fn (idxScalar (step - 1)) carry.2).sample [] sp.1)

/-- _make_sample_loop_body with sample_attr =
'experimental_sample_and_log_prob': the previous sample is extracted from
the (sample, log_prob) pair carried forward. -/
def salp_loop_body (c : MarkovChain) (carry : ℕ × (State × Tensor)) (step : ℕ) :
    ℕ × (State × Tensor) :=
  let sp := split_seed carry.1
  (sp.2, (c.transition_fn (idxScalar (step - 1)) carry.2.1).sampleAndLogProb [] sp.1)

/-- Per-leaf stacking of a list of states along a new leading axis
(the tf.scan output stacking plus the concat with the prior draw). -/
def stackStates (traj : List State) : State :=
  match traj with
  | [] => []
  | s :: _ => (List.range s.length).map (fun j => stackT (traj.map (fun st => st.getD j dT)))

/-- MarkovChain._sample_and_log_prob_helper with compute_log_prob=False
(the _sample_n path): split the seed into prior and loop seeds, draw the
prior, scan the transition sampling loop over steps 1..num_steps-1, stack
all draws along a new leading axis per leaf, and move that axis to each
leaf's step-axis position. -/
def sample_chain (c : MarkovChain) (sample_shape : List ℕ) (seed : ℕ) : State :=
  let sp := split_seed seed
  let prior_result := c.initial_state_prior.sample sample_shape sp.1
  let results := scanResults (sample_loop_body c) (sp.2, prior_result)
    (List.range' 1 (c.num_steps - 1))
  let samples := stackStates (prior_result :: results)
  List.zipWith (fun t ax => move_dimension t 0 ax) samples (step_axes c)

/-- MarkovChain._sample_and_log_prob_helper with compute_log_prob=True:
as sample_chain, but each draw also carries its log-density under its
step distribution; the stacked per-step log-densities are reduced along
the step axis with sum_fn before the axis move of the samples. -/
def sample_and_log_prob (c : MarkovChain) (sample_shape : List ℕ) (seed : ℕ) :
    State × Tensor :=
  let sp := split_seed seed
  let prior_result := c.initial_state_prior.sampleAndLogProb sample_shape sp.1
  let results := scanResults (salp_loop_body c) (sp.2, prior_result)
    (List.range' 1 (c.num_steps - 1))
  let all := prior_result :: results
  let samples := stackStates (all.map Prod.fst)
  let lp := sum_fn c (stackT (all.map Prod.snd))
  (List.zipWith (fun t ax => move_dimension t 0 ax) samples (step_axes c), lp)

/-- _markov_chain_log_prob_ratio: subtract the decomposed
(prior_lp, transition_lp) parts of the two chains before the single
reduction over the step axis; the reduction is Kahan-compensated when
either chain requests it. -/
def markov_chain_log_prob_ratio (p : MarkovChain) (x : State) (q : MarkovChain)
    (y : State) : Tensor :=
  let pp := log_prob_parts p x
  let qp := log_prob_parts q y
  let prior_lp_ratio := tsub pp.1 qp.1
  let transition_lp_ratios := tsub pp.2 qp.2
  let transition_lp_ratio :=
    if p.experimental_use_kahan_sum || q.experimental_use_kahan_sum
    then reduceKahan0 transition_lp_ratios
    else reduceSum0 transition_lp_ratios
  tadd prior_lp_ratio transition_lp_ratio

/-- MarkovChain._parameter_control_dependencies: with validation off, no
assertions; otherwise, when is_init differs from whether num_steps is a
deferred reference, the single assertion num_steps >= 1 (true = passes). -/
def parameter_control_dependencies (c : MarkovChain) (is_init : Bool)
    (num_steps_is_ref : Bool) : List Bool :=
  if ¬ c.validate_args then []
  else if is_init ≠ num_steps_is_ref then [decide (1 ≤ c.num_steps)] else []

/-- Resolve a (possibly negative) axis index against a rank. -/
def resolveIdx (r : ℕ) (ax : ℤ) : ℕ := (ax + r).toNat

/-- MarkovChain._sample_control_dependencies: with validation off, no
assertions; otherwise, per leaf, the assertion that the extent along the
leaf's step axis equals num_steps (true = passes). -/
def sample_control_dependencies (c : MarkovChain) (x : State) : List Bool :=
  if ¬ c.validate_args then []
  else List.zipWith
    (fun xp ax => decide (xp.shape.getD (resolveIdx xp.shape.length ax) 0 = c.num_steps))
    x (step_axes c)

/-- A static tensor shape as TensorShape knows it: possibly unknown rank,
possibly unknown dimensions. -/
def OptShape := Option (List (Option ℕ))

/-- tensorshape_util.is_compatible_with for two static shapes. -/
def shapesCompatible : OptShape → OptShape → Bool
  | none, _ => true
  | _, none => true
  | some a, some b =>
    a.length = b.length ∧
      ∀ i < a.length, ∀ da ∈ a.getD i none, ∀ db ∈ b.getD i none, da = db

/-- tensorshape_util.is_fully_defined for a static shape. -/
def shapeFullyDefined : OptShape → Bool
  | none => false
  | some a => a.all (fun d => d.isSome)

/-- _assert_same_shape: raise a hard error when the static shapes are
incompatible; otherwise, return the runtime assertion comparing dynamic
shapes when validation is on and either static shape is not fully
defined. The returned list holds the runtime checks (true = passes). -/
def assert_same_shape (xs ys : OptShape) (xd yd : List ℕ) (validate : Bool) :
    Except String (List Bool) :=
  if shapesCompatible xs ys = false then Except.error "Shapes do not match."
  else if validate = true ∧ ¬ (shapeFullyDefined xs = true ∧ shapeFullyDefined ys = true)
  then Except.ok [decide (xd = yd)]
  else Except.ok []

/-- Well-formedness of a single-step state: leaf j has the given shape
and consistent row-major data length. -/
def SliceWF (Sh : List (List ℕ)) (s : State) : Prop :=
  s.length = Sh.length ∧
    ∀ j < Sh.length, (s.getD j dT).shape = Sh.getD j [] ∧
      (s.getD j dT).data.length = (Sh.getD j []).prod

/-- Well-formedness of a step-leading state: leaf j has shape
k :: Sh_j (the step axis in front) and consistent data length. -/
def MovedWF (k : ℕ) (Sh : List (List ℕ)) (x : State) : Prop :=
  x.length = Sh.length ∧
    ∀ j < Sh.length, (x.getD j dT).shape = k :: Sh.getD j [] ∧
      (x.getD j dT).data.length = k * (Sh.getD j []).prod

/-- The batching contract of a valid transition rule (spec section 6):
one vectorized call, whose step-index argument is tf.range k and whose
state arguments carry a leading dimension of size k, yields the stack of
the k scalar-mode log-probs of the corresponding slices. -/
def VecHyp (tr : Tensor → State → Distn) (Sh : List (List ℕ)) (B : List ℕ) : Prop :=
  ∀ (k : ℕ) (zs ws : State), MovedWF k Sh zs → MovedWF k Sh ws →
    (tr (idxRange k) zs).logProb ws =
      stackTsh B ((List.range k).map (fun t =>
        (tr (idxScalar t) (zs.map (fun z => sliceAt0 z t))).logProb
          (ws.map (fun w => sliceAt0 w t))))

/-- Scalar-mode transition log-probs have the chain's batch shape B. -/
def ScalarLpHyp (tr : Tensor → State → Distn) (Sh : List (List ℕ)) (B : List ℕ) : Prop :=
  ∀ (t : ℕ) (s w : State), SliceWF Sh s → SliceWF Sh w →
    ((tr (idxScalar t) s).logProb w).shape = B ∧
      ((tr (idxScalar t) s).logProb w).data.length = B.prod

/-- Prior log-probs have the chain's batch shape B. -/
def PriorLpHyp (d : Distn) (Sh : List (List ℕ)) (B : List ℕ) : Prop :=
  ∀ s : State, SliceWF Sh s →
    (d.logProb s).shape = B ∧ (d.logProb s).data.length = B.prod

/-- The step-t slice of a trajectory: per leaf, move the step axis to the
front and take the t-th slice. -/
def stepSlices (c : MarkovChain) (x : State) (t : ℕ) : State :=
  (movedLeaves c x).map (fun sp => sliceAt0 sp t)

/-- The loop seed in force before sampling step t+1: the initial loop
seed threaded through t splits. -/
def loop_seeds (ls : ℕ) : ℕ → ℕ
  | 0 => ls
  | t + 1 => (split_seed (loop_seeds ls t)).2

/-- The sampling recurrence exactly as the spec words it: draw the
initial state from the prior with the prior seed; for each later step,
split the current loop seed into a step seed and the next loop seed and
draw from the transition distribution of the previous step and state. -/
def rec_traj (c : MarkovChain) (sample_shape : List ℕ) (seed : ℕ) : ℕ → State
  | 0 => c.initial_state_prior.sample sample_shape (split_seed seed).1
  | t + 1 =>
    (c.transition_fn (idxScalar t) (rec_traj c sample_shape seed t)).sample []
      (split_seed (loop_seeds (split_seed seed).2 t)).1

/-- The sampling algorithm as the spec describes it: the per-step draws
x_0 .. x_(num_steps-1) of the recurrence stacked along a new leading axis
per leaf, with that axis then moved to each leaf's step-axis position. -/
def sample_spec (c : MarkovChain) (sample_shape : List ℕ) (seed : ℕ) : State :=
  List.zipWith (fun t ax => move_dimension t 0 ax)
    (stackStates ((List.range c.num_steps).map (rec_traj c sample_shape seed)))
    (step_axes c)

/-- The per-step log-densities accumulated by the joint
sample-and-log-prob path, written against the recurrence: the prior
log-density of the initial draw followed by, for each later step, the
transition log-density of the drawn state. -/
def rec_lps (c : MarkovChain) (sample_shape : List ℕ) (seed : ℕ) : List Tensor :=
  c.initial_state_prior.logProb (rec_traj c sample_shape seed 0) ::
    (List.range' 1 (c.num_steps - 1)).map (fun u =>
      (c.transition_fn (idxScalar (u - 1)) (rec_traj c sample_shape seed (u - 1))).logProb
        (rec_traj c sample_shape seed u))

/-- A concrete scalar distribution used to instantiate theorems: one
scalar leaf, the sample is the seed cast to a rational, the log-prob of a
state is its single leaf (so batched log-probs are the identity on the
leaf, which satisfies the vectorization contract). -/
def wit_prior : Distn :=
  ⟨fun _ s => [⟨[], [(s : ℚ)]⟩],
   fun _ s => ([⟨[], [(s : ℚ)]⟩], ⟨[], [(s : ℚ)]⟩),
   fun st => st.headD dT,
   [[]]⟩

/-- A concrete transition rule for instantiating theorems: every step
returns the same scalar distribution as wit_prior. -/
def wit_tr (_i : Tensor) (_st : State) : Distn := wit_prior

/-- A concrete chain built from the witness prior and transition. -/
def wit_chain (n : ℕ) (kahan validate : Bool) : MarkovChain :=
  ⟨wit_prior, wit_tr, n, kahan, validate⟩

/-- A transition rule whose log-prob has the wrong batch shape, used to
exercise the shape assertion in log_prob. -/
def wit_tr_bad (_i : Tensor) (_st : State) : Distn :=
  ⟨fun _ s => [⟨[], [(s : ℚ)]⟩],
   fun _ s => ([⟨[], [(s : ℚ)]⟩], ⟨[], [(s : ℚ)]⟩),
   fun _w => ⟨[1, 5], [0, 0, 0, 0, 0]⟩,
   [[]]⟩

/-- A concrete length-2 scalar trajectory. -/
def wit_x2 : State := [⟨[2], [1, 2]⟩]

/-- A concrete length-3 scalar trajectory. -/
def wit_x3 : State := [⟨[3], [5, 7, 11]⟩]

/-- A concrete length-1 scalar trajectory. -/
def wit_x1 : State := [⟨[1], [9]⟩]

/-- A second concrete length-3 scalar trajectory. -/
def wit_y3 : State := [⟨[3], [2, 4, 6]⟩]

instance (Sh : List (List ℕ)) (x : State) : Decidable (SliceWF Sh x) := by
  unfold SliceWF
  infer_instance

instance (k : ℕ) (Sh : List (List ℕ)) (x : State) : Decidable (MovedWF k Sh x) := by
  unfold MovedWF
  infer_instance

section ListLemmas

lemma getD_map_range {β : Type} (f : ℕ → β) (n j : ℕ) (h : j < n) (d : β) :
    ((List.range n).map f).getD j d = f j := by
  simp [List.getD_eq_getElem?_getD, List.getElem?_range h]

lemma map_getD_range {α β : Type} (l : List α) (f : α → β) (d : α) :
    (List.range l.length).map (fun r => f (l.getD r d)) = l.map f := by
  apply List.ext_getElem
  · simp
  · intro i h1 h2
    simp only [List.getElem_map, List.getElem_range]
    congr 1
    simp only [List.getD_eq_getElem?_getD]
    rw [List.getElem?_eq_getElem (by simpa using h2)]
    rfl

lemma getD_range_map_self (l : List ℚ) :
    (List.range l.length).map (fun j => l.getD j 0) = l := by
  have := map_getD_range l id 0
  simpa using this

lemma length_reindex (n : ℕ) (f : ℕ → ℕ) (d : List ℚ) : (reindex n f d).length = n := by
  simp [reindex]

lemma getD_reindex (n : ℕ) (f : ℕ → ℕ) (d : List ℚ) (j : ℕ) (h : j < n) :
    (reindex n f d).getD j 0 = d.getD (f j) 0 := by
  unfold reindex
  exact getD_map_range (fun j => d.getD (f j) 0) n j h 0

lemma reindex_reindex (n m : ℕ) (f g : ℕ → ℕ) (d : List ℚ)
    (hf : ∀ j < n, f j < m) :
    reindex n f (reindex m g d) = reindex n (fun j => g (f j)) d := by
  unfold reindex
  apply List.ext_getElem
  · simp
  · intro i h1 h2
    simp only [List.getElem_map, List.getElem_range]
    have hi : i < n := by simpa using h1
    have : ((List.range m).map (fun j => d.getD (g j) 0)).getD (f i) 0 = d.getD (g (f i)) 0 :=
      getD_map_range _ _ _ (hf i hi) 0
    simpa using this

lemma reindex_id (n : ℕ) (f : ℕ → ℕ) (d : List ℚ) (hlen : d.length = n)
    (hf : ∀ j < n, f j = j) : reindex n f d = d := by
  unfold reindex
  apply List.ext_getElem
  · simpa using hlen.symm
  · intro i h1 h2
    have hi : i < n := by simpa using h1
    simp only [List.getElem_map, List.getElem_range, hf i hi]
    simp [List.getD_eq_getElem?_getD, List.getElem?_eq_getElem h2]

lemma flatten_chunk (ls : List (List ℚ)) (w : ℕ) (h : ∀ e ∈ ls, e.length = w)
    (r : ℕ) (hr : r < ls.length) :
    (ls.flatten.drop (r * w)).take w = ls.getD r [] := by
  induction ls generalizing r with
  | nil => simp at hr
  | cons e rest ih =>
    cases r with
    | zero =>
      have he : e.length = w := h e (by simp)
      simp [List.flatten_cons, ← he, List.take_left]
    | succ r =>
      have he : e.length = w := h e (by simp)
      have hw : (r + 1) * w = e.length + r * w := by rw [he]; ring
      rw [List.flatten_cons, hw, ← List.drop_drop, List.drop_left]
      exact ih (fun x hx => h x (by simp [hx])) r (by simpa using hr)

lemma length_flatten_const (ls : List (List ℚ)) (w : ℕ) (h : ∀ e ∈ ls, e.length = w) :
    ls.flatten.length = ls.length * w := by
  induction ls with
  | nil => simp
  | cons e rest ih =>
    have he : e.length = w := h e (by simp)
    simp [List.flatten_cons, he, ih (fun x hx => h x (by simp [hx]))]
    ring

lemma getD_flatten (ls : List (List ℚ)) (w : ℕ) (h : ∀ e ∈ ls, e.length = w)
    (r i : ℕ) (hr : r < ls.length) (hi : i < w) :
    ls.flatten.getD (r * w + i) 0 = (ls.getD r []).getD i 0 := by
  have hchunk := flatten_chunk ls w h r hr
  have h1 : ((ls.flatten.drop (r * w)).take w).getD i 0 = ls.flatten.getD (r * w + i) 0 := by
    simp only [List.getD_eq_getElem?_getD]
    rw [List.getElem?_take_of_lt hi, List.getElem?_drop]
  rw [← h1, hchunk]

lemma take_one_drop (l : List ℚ) (t : ℕ) (h : t < l.length) :
    (l.drop t).take 1 = [l.getD t 0] := by
  rw [List.drop_eq_getElem_cons h, List.take_succ_cons, List.take_zero]
  simp [List.getD_eq_getElem?_getD, List.getElem?_eq_getElem h]

lemma sum_map_sub (l : List ℕ) (f g : ℕ → ℚ) :
    (l.map (fun x => f x - g x)).sum = (l.map f).sum - (l.map g).sum := by
  induction l with
  | nil => simp
  | cons x xs ih => simp [ih]; ring

lemma zipWith_add_zero (l : List ℚ) (z : List ℚ) (hz : ∀ a ∈ z, a = 0)
    (hlen : l.length ≤ z.length) : List.zipWith (· + ·) l z = l := by
  induction l generalizing z with
  | nil => simp
  | cons x xs ih =>
    cases z with
    | nil => simp at hlen
    | cons a as =>
      have ha : a = 0 := hz a (by simp)
      simp only [List.zipWith_cons_cons, ha, add_zero]
      rw [ih as (fun b hb => hz b (by simp [hb])) (by simpa using hlen)]

lemma zipWith_map_same {α β : Type} [Add β] (l : List α) (f g : α → β) :
    List.zipWith (· + ·) (l.map f) (l.map g) = l.map (fun i => f i + g i) := by
  induction l with
  | nil => simp
  | cons x xs ih => simp [ih]

lemma zipWith_four_shuffle (a b c d : List ℚ)
    (hab : a.length = b.length) (hac : a.length = c.length) (had : a.length = d.length) :
    List.zipWith (· + ·) (List.zipWith (· - ·) a b) (List.zipWith (· - ·) c d) =
      List.zipWith (· - ·) (List.zipWith (· + ·) a c) (List.zipWith (· + ·) b d) := by
  induction a generalizing b c d with
  | nil => simp
  | cons x xs ih =>
    cases b with
    | nil => simp at hab
    | cons y ys =>
      cases c with
      | nil => simp at hac
      | cons u us =>
        cases d with
        | nil => simp at had
        | cons v vs =>
          simp only [List.zipWith_cons_cons]
          congr 1
          · ring
          · exact ih ys us vs (by simpa using hab) (by simpa using hac) (by simpa using had)

lemma kahan_foldl (l : List ℚ) (t0 : ℚ) : l.foldl kahanStep (t0, 0) = (t0 + l.sum, 0) := by
  induction l generalizing t0 with
  | nil => simp
  | cons x xs ih =>
    have hstep : kahanStep (t0, 0) x = (t0 + x, 0) := by
      simp [kahanStep]
    rw [List.foldl_cons, hstep, ih]
    simp [add_assoc]

lemma kahanList_fst (l : List ℚ) : (kahanList l).1 = l.sum := by
  unfold kahanList
  rw [kahan_foldl]
  simp

end ListLemmas

section TensorLemmas

lemma getD_zero_headD {α : Type} (l : List α) (d : α) : l.getD 0 d = l.headD d := by
  cases l <;> simp

lemma getD_append_len {α : Type} (A : List α) (y : α) (B : List α) (d : α) :
    (A ++ y :: B).getD A.length d = y := by
  simp [List.getD_eq_getElem?_getD, List.getElem?_append_right (Nat.le_refl A.length)]

lemma take_append_len {α : Type} (A : List α) (y : α) (B : List α) :
    (A ++ y :: B).take A.length = A := List.take_left A (y :: B)

lemma drop_append_len_succ {α : Type} (A : List α) (y : α) (B : List α) :
    (A ++ y :: B).drop (A.length + 1) = B := by
  have h1 : (A ++ y :: B).drop A.length = y :: B := List.drop_left A (y :: B)
  have h2 : (A ++ y :: B).drop (A.length + 1) = ((A ++ y :: B).drop A.length).drop 1 := by
    rw [List.drop_drop, Nat.add_comm]
  rw [h2, h1]
  simp

lemma index_bound (x X b w : ℕ) (hx : x < X) (hb : b < w) : x * w + b < X * w := by
  calc x * w + b < x * w + w := by omega
  _ = (x + 1) * w := by ring
  _ ≤ X * w := Nat.mul_le_mul_right w hx

lemma reindex_reindex_id (N N2 : ℕ) (f g : ℕ → ℕ) (d : List ℚ)
    (hlen : d.length = N) (hf : ∀ j < N, f j < N2) (hgf : ∀ j < N, g (f j) = j) :
    reindex N f (reindex N2 g d) = d := by
  apply List.ext_getElem
  · simp [reindex, hlen]
  · intro i h1 h2
    have hi : i < N := by simpa [reindex] using h1
    unfold reindex
    simp only [List.getElem_map, List.getElem_range]
    have e3 : ((List.range N2).map (fun j => d.getD (g j) 0)).getD (f i) 0 = d.getD (g (f i)) 0 :=
      getD_map_range _ _ _ (hf i hi) 0
    rw [e3, hgf i hi]
    simp [List.getD_eq_getElem?_getD, List.getElem?_eq_getElem h2]

lemma pos_of_lt_mul3 (n pA pB j : ℕ) (hj : j < n * (pA * pB)) :
    0 < n ∧ 0 < pA ∧ 0 < pB := by
  refine ⟨?_, ?_, ?_⟩
  · rcases Nat.eq_zero_or_pos n with h | h
    · subst h; simp at hj
    · exact h
  · rcases Nat.eq_zero_or_pos pA with h | h
    · subst h; simp at hj
    · exact h
  · rcases Nat.eq_zero_or_pos pB with h | h
    · subst h; simp at hj
    · exact h

lemma move_maps_bound (n pA pB j : ℕ) (hj : j < n * (pA * pB)) :
    (j / pB % pA * n + j / pB / pA) * pB + j % pB < pA * (n * pB) := by
  obtain ⟨hn, hpA, hpB⟩ := pos_of_lt_mul3 n pA pB j hj
  have hb : j % pB < pB := Nat.mod_lt _ hpB
  have hq : j / pB < n * pA := by
    rw [Nat.div_lt_iff_lt_mul hpB, Nat.mul_assoc]
    exact hj
  have ha : j / pB % pA < pA := Nat.mod_lt _ hpA
  have hi : j / pB / pA < n := by
    rw [Nat.div_lt_iff_lt_mul hpA]
    exact hq
  have h1 : j / pB % pA * n + j / pB / pA < pA * n :=
    index_bound _ _ _ _ ha hi
  have h2 : (j / pB % pA * n + j / pB / pA) * pB + j % pB < pA * n * pB :=
    index_bound _ _ _ _ h1 hb
  rw [Nat.mul_assoc] at h2
  exact h2

lemma move_maps_inverse (n pA pB j : ℕ) (hj : j < n * (pA * pB)) :
    ((j / pB % pA * n + j / pB / pA) * pB + j % pB) / pB % n * pA +
        ((j / pB % pA * n + j / pB / pA) * pB + j % pB) / pB / n =
      j / pB ∧
    ((j / pB % pA * n + j / pB / pA) * pB + j % pB) % pB = j % pB := by
  obtain ⟨hn, hpA, hpB⟩ := pos_of_lt_mul3 n pA pB j hj
  have hb : j % pB < pB := Nat.mod_lt _ hpB
  have hq : j / pB < n * pA := by
    rw [Nat.div_lt_iff_lt_mul hpB, Nat.mul_assoc]
    exact hj
  have ha : j / pB % pA < pA := Nat.mod_lt _ hpA
  have hi : j / pB / pA < n := by
    rw [Nat.div_lt_iff_lt_mul hpA]
    exact hq
  have e1 : ((j / pB % pA * n + j / pB / pA) * pB + j % pB) % pB = j % pB := by
    rw [Nat.add_comm, Nat.add_mul_mod_self_right, Nat.mod_eq_of_lt hb]
  have e2 : ((j / pB % pA * n + j / pB / pA) * pB + j % pB) / pB =
      j / pB % pA * n + j / pB / pA := by
    rw [Nat.mul_comm (j / pB % pA * n + j / pB / pA) pB, Nat.mul_add_div hpB,
      Nat.div_eq_of_lt hb, Nat.add_zero]
  have e3 : (j / pB % pA * n + j / pB / pA) % n = j / pB / pA := by
    rw [Nat.add_comm, Nat.add_mul_mod_self_right, Nat.mod_eq_of_lt hi]
  have e4 : (j / pB % pA * n + j / pB / pA) / n = j / pB % pA := by
    rw [Nat.mul_comm (j / pB % pA) n, Nat.mul_add_div hn, Nat.div_eq_of_lt hi, Nat.add_zero]
  refine ⟨?_, e1⟩
  rw [e2, e3, e4]
  exact Nat.div_add_mod' (j / pB) pA

lemma moveDimTo0_zero (t : Tensor) (hne : t.shape ≠ []) (hwf : t.data.length = t.shape.prod) :
    moveDimTo0 0 t = t := by
  obtain ⟨sh, d⟩ := t
  obtain ⟨m, rest, hsh⟩ : ∃ m rest, sh = m :: rest := by
    cases h : sh with
    | nil => exact absurd h hne
    | cons a l => exact ⟨a, l, rfl⟩
  subst hsh
  simp only at hwf
  have hstep : moveDimTo0 0 ⟨m :: rest, d⟩ =
      ⟨m :: rest, reindex (m * (1 * rest.prod))
        (fun j => (j / rest.prod % 1 * m + j / rest.prod / 1) * rest.prod + j % rest.prod) d⟩ :=
    rfl
  rw [hstep]
  simp only [Tensor.mk.injEq, true_and]
  apply reindex_id
  · rw [hwf, List.prod_cons]
    ring
  · intro j hj
    simp only [Nat.mod_one, Nat.div_one, Nat.zero_mul, Nat.zero_add]
    exact Nat.div_add_mod' j rest.prod

lemma moveDim0To_zero (t : Tensor) (hne : t.shape ≠ []) (hwf : t.data.length = t.shape.prod) :
    moveDim0To 0 t = t := by
  obtain ⟨sh, d⟩ := t
  obtain ⟨m, rest, hsh⟩ : ∃ m rest, sh = m :: rest := by
    cases h : sh with
    | nil => exact absurd h hne
    | cons a l => exact ⟨a, l, rfl⟩
  subst hsh
  simp only at hwf
  have hstep : moveDim0To 0 ⟨m :: rest, d⟩ =
      ⟨m :: rest, reindex (1 * (m * rest.prod))
        (fun j => (j / rest.prod % m * 1 + j / rest.prod / m) * rest.prod + j % rest.prod) d⟩ :=
    rfl
  rw [hstep]
  simp only [Tensor.mk.injEq, true_and]
  apply reindex_id
  · rw [hwf, List.prod_cons]
    ring
  · intro j hj
    have hj2 : j < m * rest.prod := by omega
    have hpB : 0 < rest.prod := by
      rcases Nat.eq_zero_or_pos rest.prod with h0 | h
      · rw [h0, Nat.mul_zero] at hj2
        omega
      · exact h
    have hq : j / rest.prod < m := by
      rw [Nat.div_lt_iff_lt_mul hpB]
      exact hj2
    rw [Nat.mod_eq_of_lt hq, Nat.mul_one, Nat.div_eq_of_lt hq, Nat.add_zero]
    exact Nat.div_add_mod' j rest.prod

lemma moveDim0To_spec (t : Tensor) (n : ℕ) (R : List ℕ) (k : ℕ)
    (hsh : t.shape = n :: R) :
    (moveDim0To k t).shape = R.take k ++ n :: R.drop k ∧
      (moveDim0To k t).data.length = (R.take k).prod * (n * (R.drop k).prod) := by
  unfold moveDim0To
  rw [hsh]
  exact ⟨rfl, length_reindex _ _ _⟩

lemma moveDimTo0_shape_spec (t : Tensor) (P : List ℕ) (n : ℕ) (E : List ℕ)
    (hsh : t.shape = P ++ n :: E) :
    (moveDimTo0 P.length t).shape = n :: (P ++ E) ∧
      (moveDimTo0 P.length t).data.length = n * (P.prod * E.prod) := by
  unfold moveDimTo0
  rw [hsh]
  rw [getD_append_len, take_append_len, drop_append_len_succ]
  exact ⟨rfl, length_reindex _ _ _⟩

lemma move_roundtrip (k : ℕ) (t : Tensor) (n : ℕ) (R : List ℕ)
    (hsh : t.shape = n :: R) (hk : k ≤ R.length)
    (hwf : t.data.length = t.shape.prod) :
    moveDimTo0 k (moveDim0To k t) = t := by
  obtain ⟨sh, d⟩ := t
  simp only at hsh hwf
  subst hsh
  obtain ⟨A, B, hR, hAlen⟩ : ∃ A B, R = A ++ B ∧ A.length = k :=
    ⟨R.take k, R.drop k, (List.take_append_drop k R).symm, by simp [hk]⟩
  subst hR
  subst hAlen
  have h0 : moveDim0To A.length ⟨n :: (A ++ B), d⟩ =
      ⟨A ++ n :: B, reindex (A.prod * (n * B.prod))
        (fun j => (j / B.prod % n * A.prod + j / B.prod / n) * B.prod + j % B.prod) d⟩ := by
    unfold moveDim0To
    simp only [List.headD_cons, List.tail_cons, List.take_left, List.drop_left]
  rw [h0]
  have h1 : moveDimTo0 A.length ⟨A ++ n :: B, reindex (A.prod * (n * B.prod))
        (fun j => (j / B.prod % n * A.prod + j / B.prod / n) * B.prod + j % B.prod) d⟩ =
      ⟨n :: (A ++ B), reindex (n * (A.prod * B.prod))
        (fun j => (j / B.prod % A.prod * n + j / B.prod / A.prod) * B.prod + j % B.prod)
        (reindex (A.prod * (n * B.prod))
          (fun j => (j / B.prod % n * A.prod + j / B.prod / n) * B.prod + j % B.prod) d)⟩ := by
    unfold moveDimTo0
    simp only [getD_append_len, take_append_len, drop_append_len_succ]
  rw [h1]
  simp only [Tensor.mk.injEq, true_and]
  apply reindex_reindex_id
  · rw [hwf, List.prod_cons, List.prod_append]
  · intro j hj
    exact move_maps_bound n A.prod B.prod j hj
  · intro j hj
    obtain ⟨e5, e6⟩ := move_maps_inverse n A.prod B.prod j hj
    rw [e5, e6]
    exact Nat.div_add_mod' j B.prod

end TensorLemmas

section MoreLemmas

lemma tensor_ext (a b : Tensor) (h1 : a.shape = b.shape) (h2 : a.data = b.data) : a = b := by
  cases a
  cases b
  simp_all

lemma getD_map_of_lt {α β : Type} (f : α → β) (l : List α) (j : ℕ) (h : j < l.length)
    (d : α) (e : β) : (l.map f).getD j e = f (l.getD j d) := by
  simp only [List.getD_eq_getElem?_getD]
  rw [List.getElem?_map, List.getElem?_eq_getElem h]
  rfl

lemma getD_zipWith_of_lt {α β γ : Type} (F : α → β → γ) (a : List α) (b : List β) (j : ℕ)
    (ha : j < a.length) (hb : j < b.length) (da : α) (db : β) (dc : γ) :
    (List.zipWith F a b).getD j dc = F (a.getD j da) (b.getD j db) := by
  have hj : j < (List.zipWith F a b).length := by
    rw [List.length_zipWith]
    omega
  simp only [List.getD_eq_getElem?_getD]
  rw [List.getElem?_eq_getElem hj, List.getElem?_eq_getElem ha, List.getElem?_eq_getElem hb]
  simp [List.getElem_zipWith]

lemma mem_getD {α : Type} (l : List α) (j : ℕ) (h : j < l.length) (d : α) :
    l.getD j d ∈ l := by
  simp only [List.getD_eq_getElem?_getD, List.getElem?_eq_getElem h]
  exact List.getElem_mem h

lemma move_dimension_to_front (t : Tensor) (nd : ℕ) (h : nd + 1 ≤ t.shape.length)
    (hwf : t.data.length = t.shape.prod) :
    move_dimension t (-(1 + (nd : ℤ))) 0 = moveDimTo0 (t.shape.length - 1 - nd) t := by
  have hne : t.shape ≠ [] := by
    intro h0
    rw [h0] at h
    simp at h
  have e1 : (if -(1 + (nd:ℤ)) < 0 then -(1 + (nd:ℤ)) + (t.shape.length:ℤ) else -(1 + (nd:ℤ)))
      = -(1 + (nd:ℤ)) + t.shape.length := if_pos (by omega)
  have e2 : (if (0:ℤ) < 0 then (0:ℤ) + (t.shape.length:ℤ) else (0:ℤ)) = 0 := if_neg (by omega)
  unfold move_dimension
  simp only
  rw [e1, e2]
  by_cases hs : -(1 + (nd:ℤ)) + (t.shape.length:ℤ) = 0
  · rw [if_pos hs]
    have e0 : t.shape.length - 1 - nd = 0 := by omega
    rw [e0, moveDimTo0_zero t hne hwf]
    show moveDim0To 0 t = t
    exact moveDim0To_zero t hne hwf
  · rw [if_neg hs, if_pos rfl]
    congr 1
    omega

lemma move_dimension_to_back (t : Tensor) (nd : ℕ) (h : nd + 1 ≤ t.shape.length) :
    move_dimension t 0 (-(1 + (nd : ℤ))) = moveDim0To (t.shape.length - 1 - nd) t := by
  have e1 : (if (0:ℤ) < 0 then (0:ℤ) + (t.shape.length:ℤ) else (0:ℤ)) = 0 := if_neg (by omega)
  have e2 : (if -(1 + (nd:ℤ)) < 0 then -(1 + (nd:ℤ)) + (t.shape.length:ℤ) else -(1 + (nd:ℤ)))
      = -(1 + (nd:ℤ)) + t.shape.length := if_pos (by omega)
  unfold move_dimension
  simp only
  rw [e1, e2, if_pos rfl]
  congr 1
  omega

lemma moveDim0To_rank (t : Tensor) (n : ℕ) (R : List ℕ) (k : ℕ)
    (hsh : t.shape = n :: R) (hk : k ≤ R.length) :
    (moveDim0To k t).shape.length = R.length + 1 := by
  rw [(moveDim0To_spec t n R k hsh).1]
  simp [List.length_take, List.length_drop]
  omega

lemma move_back_forth (s : Tensor) (nd : ℕ) (n : ℕ) (R : List ℕ)
    (hsh : s.shape = n :: R) (hnd : nd ≤ R.length)
    (hwf : s.data.length = s.shape.prod) :
    move_dimension (move_dimension s 0 (-(1 + (nd:ℤ)))) (-(1 + (nd:ℤ))) 0 = s := by
  have hrank : s.shape.length = R.length + 1 := by rw [hsh]; simp
  have h1 : nd + 1 ≤ s.shape.length := by omega
  rw [move_dimension_to_back s nd h1]
  have hk : s.shape.length - 1 - nd = R.length - nd := by omega
  rw [hk]
  have hk2 : R.length - nd ≤ R.length := by omega
  obtain ⟨hmsh, hmlen⟩ := moveDim0To_spec s n R (R.length - nd) hsh
  have hmrank : (moveDim0To (R.length - nd) s).shape.length = R.length + 1 :=
    moveDim0To_rank s n R (R.length - nd) hsh hk2
  have hmwf : (moveDim0To (R.length - nd) s).data.length =
      (moveDim0To (R.length - nd) s).shape.prod := by
    rw [hmlen, hmsh]
    simp [List.prod_append, List.prod_cons]
  have h2 : nd + 1 ≤ (moveDim0To (R.length - nd) s).shape.length := by omega
  rw [move_dimension_to_front _ nd h2 hmwf]
  have hk3 : (moveDim0To (R.length - nd) s).shape.length - 1 - nd = R.length - nd := by omega
  rw [hk3]
  exact move_roundtrip (R.length - nd) s n R hsh hk2 hwf

lemma sliceAt0_spec (t : Tensor) (n : ℕ) (R : List ℕ) (i : ℕ) (hsh : t.shape = n :: R)
    (hwf : t.data.length = n * R.prod) (hi : i < n) :
    (sliceAt0 t i).shape = R ∧ (sliceAt0 t i).data.length = R.prod := by
  unfold sliceAt0
  rw [hsh]
  refine ⟨rfl, ?_⟩
  simp only [List.tail_cons, List.length_take, List.length_drop, hwf]
  have h1 : (i + 1) * R.prod ≤ n * R.prod := Nat.mul_le_mul_right _ (Nat.succ_le_of_lt hi)
  rw [Nat.succ_mul] at h1
  omega

lemma slice_of_slice0To (t : Tensor) (n : ℕ) (R : List ℕ) (k i : ℕ)
    (hsh : t.shape = n :: R) (hi : i < k) :
    sliceAt0 (slice0To t k) i = sliceAt0 t i := by
  unfold sliceAt0 slice0To
  rw [hsh]
  simp only [List.tail_cons]
  apply tensor_ext
  · rfl
  · simp only
    rw [List.drop_take]
    rw [List.take_take]
    congr 1
    have h1 : (i + 1) * R.prod ≤ k * R.prod := Nat.mul_le_mul_right _ (Nat.succ_le_of_lt hi)
    rw [Nat.succ_mul] at h1
    omega

lemma slice_of_slice1To (t : Tensor) (n : ℕ) (R : List ℕ) (i : ℕ)
    (hsh : t.shape = n :: R) (hi : i < n - 1) :
    sliceAt0 (slice1To t n) i = sliceAt0 t (i + 1) := by
  unfold sliceAt0 slice1To
  rw [hsh]
  simp only [List.tail_cons]
  apply tensor_ext
  · rfl
  · simp only
    rw [List.drop_take, List.drop_drop, List.take_take]
    have he : R.prod + i * R.prod = (i + 1) * R.prod := by ring
    rw [he]
    congr 1
    have h1 : (i + 1) * R.prod ≤ (n - 1) * R.prod := Nat.mul_le_mul_right _ (by omega)
    rw [Nat.succ_mul] at h1
    omega

end MoreLemmas

section StackReduceLemmas

lemma stackT_eq_stackTsh (ts : List Tensor) (sh : List ℕ) (hne : ts ≠ [])
    (h : ∀ e ∈ ts, e.shape = sh) : stackT ts = stackTsh sh ts := by
  unfold stackT stackTsh
  apply tensor_ext
  · simp only
    congr 1
    cases ts with
    | nil => exact absurd rfl hne
    | cons a rest => exact h a (by simp)
  · rfl

lemma stackTsh_len (sh : List ℕ) (ts : List Tensor)
    (h : ∀ e ∈ ts, e.data.length = sh.prod) :
    (stackTsh sh ts).data.length = ts.length * sh.prod := by
  unfold stackTsh
  simp only
  rw [length_flatten_const (ts.map Tensor.data) sh.prod]
  · simp
  · intro e he
    obtain ⟨a, ha, rfl⟩ := List.mem_map.mp he
    exact h a ha

lemma sliceAt0_stackTsh (sh : List ℕ) (ts : List Tensor) (i : ℕ)
    (h : ∀ e ∈ ts, e.shape = sh ∧ e.data.length = sh.prod) (hi : i < ts.length) :
    sliceAt0 (stackTsh sh ts) i = ts.getD i dT := by
  have hmem : ts.getD i dT ∈ ts := mem_getD ts i hi dT
  apply tensor_ext
  · show (ts.length :: sh).tail = _
    rw [(h _ hmem).1]
    rfl
  · show ((stackTsh sh ts).data.drop (i * (ts.length :: sh).tail.prod)).take
      (ts.length :: sh).tail.prod = _
    simp only [List.tail_cons]
    unfold stackTsh
    simp only
    have hc : ((ts.map Tensor.data).flatten.drop (i * sh.prod)).take sh.prod =
        (ts.map Tensor.data).getD i [] := by
      apply flatten_chunk
      · intro e he
        obtain ⟨a, ha, rfl⟩ := List.mem_map.mp he
        exact (h a ha).2
      · simpa using hi
    rw [hc]
    exact getD_map_of_lt Tensor.data ts i hi dT []

lemma reduceKahan0_eq (t : Tensor) : reduceKahan0 t = reduceSum0 t := by
  unfold reduceKahan0 reduceSum0
  apply tensor_ext
  · rfl
  · simp only [kahanList_fst]

lemma sum_fn_eq (c : MarkovChain) (t : Tensor) : sum_fn c t = reduceSum0 t := by
  unfold sum_fn
  split_ifs with h
  · exact reduceKahan0_eq t
  · rfl

lemma tcol_stackTsh (sh : List ℕ) (ts : List Tensor) (i : ℕ)
    (hlen : ∀ e ∈ ts, e.data.length = sh.prod) (hi : i < sh.prod) :
    tcol (stackTsh sh ts) i = ts.map (fun e => e.data.getD i 0) := by
  unfold tcol stackTsh
  simp only [List.headD_cons, List.tail_cons]
  have hthis : ∀ r < ts.length,
      (ts.map Tensor.data).flatten.getD (r * sh.prod + i) 0 = (ts.getD r dT).data.getD i 0 := by
    intro r hr
    have h1 : (ts.map Tensor.data).flatten.getD (r * sh.prod + i) 0 =
        ((ts.map Tensor.data).getD r []).getD i 0 := by
      apply getD_flatten
      · intro e he
        obtain ⟨a, ha, rfl⟩ := List.mem_map.mp he
        exact hlen a ha
      · simpa using hr
      · exact hi
    rw [h1, getD_map_of_lt Tensor.data ts r hr dT []]
  have h2 : (List.range ts.length).map
        (fun r => (ts.map Tensor.data).flatten.getD (r * sh.prod + i) 0) =
      (List.range ts.length).map (fun r => (ts.getD r dT).data.getD i 0) := by
    apply List.map_congr_left
    intro r hr
    exact hthis r (by simpa using hr)
  rw [h2]
  exact map_getD_range ts (fun e => e.data.getD i 0) dT

lemma reduceSum0_stackTsh (sh : List ℕ) (ts : List Tensor)
    (hlen : ∀ e ∈ ts, e.data.length = sh.prod) :
    reduceSum0 (stackTsh sh ts) = sumTensors sh ts := by
  unfold reduceSum0 sumTensors
  apply tensor_ext
  · rfl
  · show (List.range (stackTsh sh ts).shape.tail.prod).map _ = _
    have ht : (stackTsh sh ts).shape.tail = sh := rfl
    rw [ht]
    apply List.map_congr_left
    intro i hi
    rw [tcol_stackTsh sh ts i hlen (by simpa using hi)]

lemma sumTensors_cons (sh : List ℕ) (a : Tensor) (ts : List Tensor)
    (ha : a.shape = sh) (hlen : a.data.length = sh.prod) :
    sumTensors sh (a :: ts) = tadd a (sumTensors sh ts) := by
  unfold sumTensors tadd
  apply tensor_ext
  · simp [ha]
  · simp only
    have hd : a.data = (List.range sh.prod).map (fun i => a.data.getD i 0) := by
      rw [← hlen]
      exact (getD_range_map_self a.data).symm
    conv_rhs => rw [hd]
    rw [zipWith_map_same]
    apply List.map_congr_left
    intro i hi
    simp

lemma tadd_sumTensors_nil (t : Tensor) (sh : List ℕ)
    (ht : t.shape = sh) (hlen : t.data.length = sh.prod) :
    tadd t (sumTensors sh []) = t := by
  unfold tadd sumTensors
  apply tensor_ext
  · simp
  · simp only [List.map_nil, List.sum_nil]
    apply zipWith_add_zero
    · intro a ha
      obtain ⟨b, hb, rfl⟩ := List.mem_map.mp ha
      rfl
    · simp [hlen]

end StackReduceLemmas

section ChainLemmas

lemma movedWF_slice (n : ℕ) (Sh : List (List ℕ)) (xm : State) (hmv : MovedWF n Sh xm)
    (t : ℕ) (ht : t < n) : SliceWF Sh (xm.map (fun sp => sliceAt0 sp t)) := by
  obtain ⟨hlen, hj⟩ := hmv
  constructor
  · simp [hlen]
  · intro j hjlt
    have hjx : j < xm.length := by omega
    rw [getD_map_of_lt _ xm j hjx dT dT]
    obtain ⟨hsh, hdl⟩ := hj j hjlt
    exact sliceAt0_spec _ n _ t hsh hdl ht

lemma movedWF_slice0To (n : ℕ) (Sh : List (List ℕ)) (xm : State) (hmv : MovedWF n Sh xm)
    (hn : 1 ≤ n) : MovedWF (n - 1) Sh (xm.map (fun sp => slice0To sp (n - 1))) := by
  obtain ⟨hlen, hj⟩ := hmv
  constructor
  · simp [hlen]
  · intro j hjlt
    have hjx : j < xm.length := by omega
    rw [getD_map_of_lt _ xm j hjx dT dT]
    obtain ⟨hsh, hdl⟩ := hj j hjlt
    unfold slice0To
    rw [hsh]
    simp only [List.headD_cons, List.tail_cons, List.length_take, hdl]
    constructor
    · congr 1
      omega
    · have h1 : (n - 1) * (Sh.getD j []).prod ≤ n * (Sh.getD j []).prod :=
        Nat.mul_le_mul_right _ (by omega)
      omega

lemma movedWF_slice1To (n : ℕ) (Sh : List (List ℕ)) (xm : State) (hmv : MovedWF n Sh xm) :
    MovedWF (n - 1) Sh (xm.map (fun sp => slice1To sp n)) := by
  obtain ⟨hlen, hj⟩ := hmv
  constructor
  · simp [hlen]
  · intro j hjlt
    have hjx : j < xm.length := by omega
    rw [getD_map_of_lt _ xm j hjx dT dT]
    obtain ⟨hsh, hdl⟩ := hj j hjlt
    unfold slice1To
    rw [hsh]
    simp only [List.headD_cons, List.tail_cons, List.length_take, List.length_drop, hdl,
      Nat.min_self]
    constructor
    · trivial
    · have h1 : (n - 1) * (Sh.getD j []).prod = n * (Sh.getD j []).prod - (Sh.getD j []).prod := by
        rw [Nat.sub_mul, Nat.one_mul]
      omega

lemma stackStates_getD (xs : List State) (Sh : List (List ℕ)) (hne : xs ≠ [])
    (hwf : ∀ s ∈ xs, SliceWF Sh s) (j : ℕ) (hj : j < Sh.length) :
    (stackStates xs).getD j dT = stackTsh (Sh.getD j [])
      (xs.map (fun st => st.getD j dT)) := by
  cases xs with
  | nil => exact absurd rfl hne
  | cons s rest =>
    have hslen : s.length = Sh.length := (hwf s (by simp)).1
    unfold stackStates
    simp only
    rw [hslen]
    rw [getD_map_range _ _ _ hj dT]
    apply stackT_eq_stackTsh
    · simp
    · intro e he
      obtain ⟨st, hst, rfl⟩ := List.mem_map.mp he
      have hstl : st.length = Sh.length := (hwf st hst).1
      exact ((hwf st hst).2 j hj).1.trans rfl

lemma stackStates_wf (xs : List State) (Sh : List (List ℕ)) (hne : xs ≠ [])
    (hwf : ∀ s ∈ xs, SliceWF Sh s) : MovedWF xs.length Sh (stackStates xs) := by
  constructor
  · cases xs with
    | nil => exact absurd rfl hne
    | cons s rest =>
      have hslen : s.length = Sh.length := (hwf s (by simp)).1
      unfold stackStates
      simp [hslen]
  · intro j hj
    rw [stackStates_getD xs Sh hne hwf j hj]
    constructor
    · show (xs.map (fun st => st.getD j dT)).length :: Sh.getD j [] = _
      simp
    · rw [stackTsh_len]
      · simp
      · intro e he
        obtain ⟨st, hst, rfl⟩ := List.mem_map.mp he
        exact ((hwf st hst).2 j hj).2

lemma stackStates_slice (xs : List State) (Sh : List (List ℕ)) (hne : xs ≠ [])
    (hwf : ∀ s ∈ xs, SliceWF Sh s) (t : ℕ) (ht : t < xs.length) :
    (stackStates xs).map (fun sp => sliceAt0 sp t) = xs.getD t [] := by
  have htmem : xs.getD t [] ∈ xs := mem_getD xs t ht []
  have htlen : (xs.getD t []).length = Sh.length := (hwf _ htmem).1
  cases xs with
  | nil => exact absurd rfl hne
  | cons s rest =>
    have hslen : s.length = Sh.length := (hwf s (by simp)).1
    unfold stackStates
    simp only
    rw [List.map_map, hslen]
    have hcong : (List.range Sh.length).map
          ((fun sp => sliceAt0 sp t) ∘ fun j => stackT ((s :: rest).map (fun st => st.getD j dT)))
        = (List.range Sh.length).map (fun j => ((s :: rest).getD t []).getD j dT) := by
      apply List.map_congr_left
      intro j hjr
      have hj : j < Sh.length := by simpa using hjr
      simp only [Function.comp]
      rw [stackT_eq_stackTsh ((s :: rest).map (fun st => st.getD j dT)) (Sh.getD j [])
        (by simp) ?hsh]
      case hsh =>
        intro e he
        obtain ⟨st, hst, rfl⟩ := List.mem_map.mp he
        exact ((hwf st hst).2 j hj).1
      rw [sliceAt0_stackTsh (Sh.getD j []) _ t ?hall (by simpa using ht)]
      case hall =>
        intro e he
        obtain ⟨st, hst, rfl⟩ := List.mem_map.mp he
        exact ⟨((hwf st hst).2 j hj).1, ((hwf st hst).2 j hj).2⟩
      rw [getD_map_of_lt (fun st => st.getD j dT) (s :: rest) t ht [] dT]
    rw [hcong, ← htlen]
    have := map_getD_range ((s :: rest).getD t []) id dT
    simpa using this

lemma scan_sample_eq (c : MarkovChain) (sshape : List ℕ) (seed : ℕ) (cnt : ℕ) : ∀ (t : ℕ),
    scanResults (sample_loop_body c)
      (loop_seeds (split_seed seed).2 t, rec_traj c sshape seed t)
      (List.range' (t + 1) cnt) =
    (List.range' (t + 1) cnt).map (rec_traj c sshape seed) := by
  induction cnt with
  | zero => intro t; rfl
  | succ cnt ih =>
    intro t
    rw [List.range'_succ]
    show (sample_loop_body c _ (t + 1)).2 :: scanResults _ (sample_loop_body c _ (t + 1)) _ = _
    have hbody : sample_loop_body c
        (loop_seeds (split_seed seed).2 t, rec_traj c sshape seed t) (t + 1) =
        (loop_seeds (split_seed seed).2 (t + 1), rec_traj c sshape seed (t + 1)) := by
      unfold sample_loop_body
      simp only [Nat.add_sub_cancel]
      rfl
    rw [hbody]
    rw [List.map_cons]
    congr 1
    exact ih (t + 1)

lemma scan_salp_eq (c : MarkovChain) (sshape : List ℕ) (seed : ℕ)
    (hTc : ∀ (i : Tensor) (st : State) (s : ℕ),
      (c.transition_fn i st).sampleAndLogProb [] s =
        ((c.transition_fn i st).sample [] s,
         (c.transition_fn i st).logProb ((c.transition_fn i st).sample [] s)))
    (cnt : ℕ) : ∀ (t : ℕ) (a : Tensor),
    scanResults (salp_loop_body c)
      (loop_seeds (split_seed seed).2 t, (rec_traj c sshape seed t, a))
      (List.range' (t + 1) cnt) =
    (List.range' (t + 1) cnt).map (fun u => (rec_traj c sshape seed u,
      (c.transition_fn (idxScalar (u - 1)) (rec_traj c sshape seed (u - 1))).logProb
        (rec_traj c sshape seed u))) := by
  induction cnt with
  | zero => intro t a; rfl
  | succ cnt ih =>
    intro t a
    rw [List.range'_succ]
    show (salp_loop_body c _ (t + 1)).2 :: scanResults _ (salp_loop_body c _ (t + 1)) _ = _
    have hbody : salp_loop_body c
        (loop_seeds (split_seed seed).2 t, (rec_traj c sshape seed t, a)) (t + 1) =
        (loop_seeds (split_seed seed).2 (t + 1), (rec_traj c sshape seed (t + 1),
          (c.transition_fn (idxScalar t) (rec_traj c sshape seed t)).logProb
            (rec_traj c sshape seed (t + 1)))) := by
      unfold salp_loop_body
      simp only [Nat.add_sub_cancel]
      rw [hTc]
      rfl
    rw [hbody]
    rw [List.map_cons]
    congr 1
    exact ih (t + 1) _

lemma range_eq_cons_range' (n : ℕ) (hn : 1 ≤ n) :
    List.range n = 0 :: List.range' 1 (n - 1) := by
  rw [List.range_eq_range']
  conv_lhs => rw [show n = (n - 1) + 1 by omega]
  rw [List.range'_succ]

end ChainLemmas

section CoreLemma

lemma stepSlices_eq (c : MarkovChain) (x : State) (u : ℕ) :
    stepSlices c x u = (movedLeaves c x).map (fun sp => sliceAt0 sp u) := rfl

lemma mem_moved_shape (n : ℕ) (Sh : List (List ℕ)) (xm : State) (hmv : MovedWF n Sh xm)
    (sp : Tensor) (hsp : sp ∈ xm) :
    ∃ j, j < Sh.length ∧ sp.shape = n :: Sh.getD j [] ∧
      sp.data.length = n * (Sh.getD j []).prod := by
  obtain ⟨j, hjlt, hj⟩ := List.mem_iff_getElem.mp hsp
  have hjS : j < Sh.length := by rw [← hmv.1]; exact hjlt
  have hgd : xm.getD j dT = sp := by
    simp [List.getD_eq_getElem?_getD, List.getElem?_eq_getElem hjlt, hj]
  refine ⟨j, hjS, ?_, ?_⟩
  · rw [← hgd]; exact (hmv.2 j hjS).1
  · rw [← hgd]; exact (hmv.2 j hjS).2

lemma log_prob_core (c : MarkovChain) (x : State) (Sh : List (List ℕ)) (B : List ℕ) (n : ℕ)
    (hmv : MovedWF n Sh (movedLeaves c x))
    (hL : 0 < Sh.length)
    (hn : 1 ≤ n)
    (hV : VecHyp c.transition_fn Sh B)
    (hS : ScalarLpHyp c.transition_fn Sh B)
    (hP : PriorLpHyp c.initial_state_prior Sh B) :
    log_prob c x = Except.ok (tadd
      (c.initial_state_prior.logProb (stepSlices c x 0))
      (sumTensors B ((List.range (n - 1)).map (fun t =>
        (c.transition_fn (idxScalar t) (stepSlices c x t)).logProb
          (stepSlices c x (t + 1)))))) := by
  have hxmlen : (movedLeaves c x).length = Sh.length := hmv.1
  have hhead : ((movedLeaves c x).headD dT).shape.headD 0 = n := by
    have h0 : (movedLeaves c x).getD 0 dT = (movedLeaves c x).headD dT :=
      getD_zero_headD _ dT
    have h1 := (hmv.2 0 hL).1
    rw [h0] at h1
    rw [h1]
    rfl
  have hparts : log_prob_parts c x =
      (c.initial_state_prior.logProb ((movedLeaves c x).map (fun sp => sliceAt0 sp 0)),
       (c.transition_fn (idxRange (n - 1))
          ((movedLeaves c x).map (fun sp => slice0To sp (n - 1)))).logProb
         ((movedLeaves c x).map (fun sp => slice1To sp n))) := by
    unfold log_prob_parts
    simp only
    rw [hhead]
  have hzs : MovedWF (n - 1) Sh ((movedLeaves c x).map (fun sp => slice0To sp (n - 1))) :=
    movedWF_slice0To n Sh _ hmv hn
  have hws : MovedWF (n - 1) Sh ((movedLeaves c x).map (fun sp => slice1To sp n)) :=
    movedWF_slice1To n Sh _ hmv
  have hvec := hV (n - 1) _ _ hzs hws
  have hzslice : ∀ t, t < n - 1 →
      ((movedLeaves c x).map (fun sp => slice0To sp (n - 1))).map (fun z => sliceAt0 z t) =
        stepSlices c x t := by
    intro t ht
    rw [stepSlices_eq, List.map_map]
    apply List.map_congr_left
    intro sp hsp
    obtain ⟨j, hjS, hsh, hdl⟩ := mem_moved_shape n Sh _ hmv sp hsp
    simp only [Function.comp]
    exact slice_of_slice0To sp n (Sh.getD j []) (n - 1) t hsh ht
  have hwslice : ∀ t, t < n - 1 →
      ((movedLeaves c x).map (fun sp => slice1To sp n)).map (fun w => sliceAt0 w t) =
        stepSlices c x (t + 1) := by
    intro t ht
    rw [stepSlices_eq, List.map_map]
    apply List.map_congr_left
    intro sp hsp
    obtain ⟨j, hjS, hsh, hdl⟩ := mem_moved_shape n Sh _ hmv sp hsp
    simp only [Function.comp]
    exact slice_of_slice1To sp n (Sh.getD j []) t hsh ht
  have hlps : (List.range (n - 1)).map (fun t =>
        (c.transition_fn (idxScalar t)
          (((movedLeaves c x).map (fun sp => slice0To sp (n - 1))).map
            (fun z => sliceAt0 z t))).logProb
          (((movedLeaves c x).map (fun sp => slice1To sp n)).map (fun w => sliceAt0 w t))) =
      (List.range (n - 1)).map (fun t =>
        (c.transition_fn (idxScalar t) (stepSlices c x t)).logProb
          (stepSlices c x (t + 1))) := by
    apply List.map_congr_left
    intro t htr
    have ht : t < n - 1 := by simpa using htr
    rw [hzslice t ht, hwslice t ht]
  have hstepwf : ∀ u, u < n → SliceWF Sh (stepSlices c x u) := by
    intro u hu
    rw [stepSlices_eq]
    exact movedWF_slice n Sh _ hmv u hu
  have hlplen : ∀ e ∈ (List.range (n - 1)).map (fun t =>
        (c.transition_fn (idxScalar t) (stepSlices c x t)).logProb
          (stepSlices c x (t + 1))), e.data.length = B.prod := by
    intro e he
    obtain ⟨t, htr, rfl⟩ := List.mem_map.mp he
    have ht : t < n - 1 := by simpa using htr
    exact (hS t _ _ (hstepwf t (by omega)) (hstepwf (t + 1) (by omega))).2
  have hplp := hP (stepSlices c x 0) (hstepwf 0 (by omega))
  unfold log_prob
  simp only
  rw [hparts]
  simp only
  rw [hvec, hlps, sum_fn_eq, reduceSum0_stackTsh B _ hlplen]
  rw [stepSlices_eq c x 0] at hplp
  rw [if_pos]
  · rw [← stepSlices_eq]
  · rw [hplp.1]
    rfl

end CoreLemma

section SupportLemmas

lemma zipWith_zipWith_same {α β γ δ : Type} (f : γ → β → δ) (g : α → β → γ)
    (S : List α) (A : List β) :
    List.zipWith f (List.zipWith g S A) A = List.zipWith (fun s a => f (g s a) a) S A := by
  induction S generalizing A with
  | nil => simp
  | cons s S ih =>
    cases A with
    | nil => simp
    | cons a A => simp [ih]

lemma zipWith_eq_left {α β : Type} (F : α → β → α) (S : List α) (A : List β) (d : α) (e : β)
    (hlen : S.length ≤ A.length)
    (h : ∀ j < S.length, F (S.getD j d) (A.getD j e) = S.getD j d) :
    List.zipWith F S A = S := by
  induction S generalizing A with
  | nil => simp
  | cons s S ih =>
    cases A with
    | nil => simp at hlen
    | cons a A =>
      have h0 : F s a = s := h 0 (by simp)
      simp only [List.zipWith_cons_cons, h0]
      congr 1
      apply ih A (by simpa using hlen)
      intro j hj
      exact h (j + 1) (by simpa using hj)

lemma flatten_singletons {α β : Type} (l : List α) (f : α → β) :
    (l.map (fun x => [f x])).flatten = l.map f := by
  induction l with
  | nil => rfl
  | cons x xs ih => simp [ih]

lemma moveDim0To_unit (t : Tensor) (R : List ℕ) (k : ℕ) (hsh : t.shape = 1 :: R)
    (hwf : t.data.length = t.shape.prod) (hk : k ≤ R.length) :
    moveDim0To k t = ⟨R.take k ++ 1 :: R.drop k, t.data⟩ := by
  obtain ⟨sh, d⟩ := t
  simp only at hsh hwf
  subst hsh
  have hstep : moveDim0To k ⟨1 :: R, d⟩ =
      ⟨R.take k ++ 1 :: R.drop k,
       reindex ((R.take k).prod * (1 * (R.drop k).prod))
        (fun j => (j / (R.drop k).prod % 1 * (R.take k).prod + j / (R.drop k).prod / 1) *
          (R.drop k).prod + j % (R.drop k).prod) d⟩ := rfl
  rw [hstep]
  simp only [Tensor.mk.injEq, true_and]
  apply reindex_id
  · rw [hwf, List.prod_cons]
    rw [← List.prod_take_mul_prod_drop R k]
    ring
  · intro j hj
    simp only [Nat.mod_one, Nat.div_one, Nat.zero_mul, Nat.zero_add]
    exact Nat.div_add_mod' j (R.drop k).prod

lemma getD_zipWith_sub (a b : List ℚ) (i : ℕ) (ha : i < a.length) (hb : i < b.length) :
    (List.zipWith (· - ·) a b).getD i 0 = a.getD i 0 - b.getD i 0 :=
  getD_zipWith_of_lt (· - ·) a b i ha hb 0 0 0

lemma zipWith_map_two {α β : Type} (op : β → β → β) (l : List α) (f g : α → β) :
    List.zipWith op (l.map f) (l.map g) = l.map (fun i => op (f i) (g i)) := by
  induction l with
  | nil => simp
  | cons x xs ih => simp [ih]

lemma reduceSum0_tsub (u v : Tensor) (k : ℕ) (B : List ℕ)
    (hu : u.shape = k :: B) (hv : v.shape = k :: B)
    (hul : u.data.length = k * B.prod) (hvl : v.data.length = k * B.prod) :
    reduceSum0 (tsub u v) = tsub (reduceSum0 u) (reduceSum0 v) := by
  unfold reduceSum0 tsub tcol
  apply tensor_ext
  · simp [hu]
  · simp only [hu, hv, List.headD_cons, List.tail_cons]
    rw [zipWith_map_two]
    apply List.map_congr_left
    intro i hir
    have hi : i < B.prod := by simpa using hir
    rw [← sum_map_sub]
    apply congrArg
    apply List.map_congr_left
    intro r hrr
    have hr : r < k := by simpa using hrr
    have hidx : r * B.prod + i < k * B.prod := index_bound r k i B.prod hr hi
    exact getD_zipWith_sub u.data v.data (r * B.prod + i) (by omega) (by omega)

lemma tadd_tsub_shuffle (a b c d : Tensor)
    (hab : a.data.length = b.data.length) (hac : a.data.length = c.data.length)
    (had : a.data.length = d.data.length) (hshape : a.shape = b.shape) :
    tadd (tsub a b) (tsub c d) = tsub (tadd a c) (tadd b d) := by
  unfold tadd tsub
  apply tensor_ext
  · simp
  · exact zipWith_four_shuffle a.data b.data c.data d.data hab hac had

lemma log_prob_parts_eq (c : MarkovChain) (x : State) (Sh : List (List ℕ)) (n : ℕ)
    (hmv : MovedWF n Sh (movedLeaves c x)) (hL : 0 < Sh.length) :
    log_prob_parts c x =
      (c.initial_state_prior.logProb (stepSlices c x 0),
       (c.transition_fn (idxRange (n - 1))
          ((movedLeaves c x).map (fun sp => slice0To sp (n - 1)))).logProb
         ((movedLeaves c x).map (fun sp => slice1To sp n))) := by
  have hhead : ((movedLeaves c x).headD dT).shape.headD 0 = n := by
    have h0 : (movedLeaves c x).getD 0 dT = (movedLeaves c x).headD dT :=
      getD_zero_headD _ dT
    have h1 := (hmv.2 0 hL).1
    rw [h0] at h1
    rw [h1]
    rfl
  unfold log_prob_parts
  simp only
  rw [hhead]
  rfl

lemma movedLeaves_getD (c : MarkovChain) (x : State) (j : ℕ)
    (hjx : j < x.length) (hja : j < (step_axes c).length) :
    (movedLeaves c x).getD j dT =
      move_dimension (x.getD j dT) ((step_axes c).getD j 0) 0 := by
  unfold movedLeaves
  exact getD_zipWith_of_lt _ x (step_axes c) j hjx hja dT 0 dT

lemma step_axes_getD (c : MarkovChain) (j : ℕ)
    (hj : j < c.initial_state_prior.event_shape.length) :
    (step_axes c).getD j 0 =
      -(1 + ((c.initial_state_prior.event_shape.getD j []).length : ℤ)) := by
  unfold step_axes
  exact getD_map_of_lt _ _ j hj [] 0

lemma movedLeaves_wf (c : MarkovChain) (x : State) (Ps : List (List ℕ)) (n : ℕ)
    (hPlen : Ps.length = c.initial_state_prior.event_shape.length)
    (hxlen : x.length = c.initial_state_prior.event_shape.length)
    (hx : ∀ j < c.initial_state_prior.event_shape.length,
      (x.getD j dT).shape =
        Ps.getD j [] ++ n :: c.initial_state_prior.event_shape.getD j [] ∧
      (x.getD j dT).data.length = (x.getD j dT).shape.prod) :
    MovedWF n (List.zipWith (fun p e => p ++ e) Ps c.initial_state_prior.event_shape)
      (movedLeaves c x) := by
  have halen : (step_axes c).length = c.initial_state_prior.event_shape.length := by
    unfold step_axes
    simp
  have hShlen : (List.zipWith (fun p e => p ++ e) Ps
      c.initial_state_prior.event_shape).length =
      c.initial_state_prior.event_shape.length := by
    simp [hPlen]
  constructor
  · unfold movedLeaves
    simp [hxlen, halen, hPlen]
  · intro j hj
    have hjE : j < c.initial_state_prior.event_shape.length := by omega
    have hjx : j < x.length := by omega
    have hja : j < (step_axes c).length := by omega
    have hjP : j < Ps.length := by omega
    rw [movedLeaves_getD c x j hjx hja, step_axes_getD c j hjE]
    obtain ⟨hsh, hwf⟩ := hx j hjE
    have hrank : (x.getD j dT).shape.length =
        (Ps.getD j []).length + 1 +
          (c.initial_state_prior.event_shape.getD j []).length := by
      rw [hsh]
      simp
      omega
    have hnd : (c.initial_state_prior.event_shape.getD j []).length + 1 ≤
        (x.getD j dT).shape.length := by omega
    rw [move_dimension_to_front _ _ hnd hwf]
    have hkk : (x.getD j dT).shape.length - 1 -
        (c.initial_state_prior.event_shape.getD j []).length = (Ps.getD j []).length := by
      omega
    rw [hkk]
    obtain ⟨hmsh, hmlen⟩ := moveDimTo0_shape_spec (x.getD j dT) (Ps.getD j []) n
      (c.initial_state_prior.event_shape.getD j []) hsh
    have hShj : (List.zipWith (fun p e => p ++ e) Ps
        c.initial_state_prior.event_shape).getD j [] =
        Ps.getD j [] ++ c.initial_state_prior.event_shape.getD j [] :=
      getD_zipWith_of_lt _ Ps _ j hjP hjE [] [] []
    rw [hShj]
    constructor
    · rw [hmsh]
    · rw [hmlen, List.prod_append]

end SupportLemmas

section AssemblyLemmas

lemma step_axes_len (c : MarkovChain) :
    (step_axes c).length = c.initial_state_prior.event_shape.length := by
  unfold step_axes
  simp

lemma movedLeaves_roundtrip (c : MarkovChain) (S : State)
    (hlen : S.length = (step_axes c).length)
    (hcond : ∀ j < S.length, ∃ m R, (S.getD j dT).shape = m :: R ∧
      (c.initial_state_prior.event_shape.getD j []).length ≤ R.length ∧
      (S.getD j dT).data.length = (S.getD j dT).shape.prod) :
    movedLeaves c (List.zipWith (fun t ax => move_dimension t 0 ax) S (step_axes c)) = S := by
  unfold movedLeaves
  rw [zipWith_zipWith_same]
  apply zipWith_eq_left _ S (step_axes c) dT 0 (le_of_eq hlen)
  intro j hj
  have hjE : j < c.initial_state_prior.event_shape.length := by
    rw [← step_axes_len c, ← hlen]
    exact hj
  rw [step_axes_getD c j hjE]
  obtain ⟨m, R, hsh, hnd, hwf⟩ := hcond j hj
  exact move_back_forth (S.getD j dT) _ m R hsh hnd hwf

lemma rec_traj_wf (c : MarkovChain) (sshape : List ℕ) (seed : ℕ) (Sh : List (List ℕ))
    (hPs : ∀ s, SliceWF Sh (c.initial_state_prior.sample sshape s))
    (hTs : ∀ (i : Tensor) (st : State) (s : ℕ),
      SliceWF Sh ((c.transition_fn i st).sample [] s)) (u : ℕ) :
    SliceWF Sh (rec_traj c sshape seed u) := by
  cases u with
  | zero => exact hPs _
  | succ t => exact hTs _ _ _

lemma salp_eq (c : MarkovChain) (sshape : List ℕ) (seed : ℕ) (hn : 1 ≤ c.num_steps)
    (hPc : c.initial_state_prior.sampleAndLogProb sshape (split_seed seed).1 =
      (c.initial_state_prior.sample sshape (split_seed seed).1,
       c.initial_state_prior.logProb (c.initial_state_prior.sample sshape (split_seed seed).1)))
    (hTc : ∀ (i : Tensor) (st : State) (s : ℕ),
      (c.transition_fn i st).sampleAndLogProb [] s =
        ((c.transition_fn i st).sample [] s,
         (c.transition_fn i st).logProb ((c.transition_fn i st).sample [] s))) :
    sample_and_log_prob c sshape seed =
      (sample_spec c sshape seed, sum_fn c (stackT (rec_lps c sshape seed))) := by
  unfold sample_and_log_prob
  simp only
  rw [hPc]
  have hscan : scanResults (salp_loop_body c)
      ((split_seed seed).2,
        (c.initial_state_prior.sample sshape (split_seed seed).1,
         c.initial_state_prior.logProb
           (c.initial_state_prior.sample sshape (split_seed seed).1)))
      (List.range' 1 (c.num_steps - 1)) =
      (List.range' 1 (c.num_steps - 1)).map (fun u => (rec_traj c sshape seed u,
        (c.transition_fn (idxScalar (u - 1)) (rec_traj c sshape seed (u - 1))).logProb
          (rec_traj c sshape seed u))) :=
    scan_salp_eq c sshape seed hTc (c.num_steps - 1) 0 _
  rw [hscan]
  have hfst : (c.initial_state_prior.sample sshape (split_seed seed).1 ::
        (((List.range' 1 (c.num_steps - 1)).map (fun u => (rec_traj c sshape seed u,
          (c.transition_fn (idxScalar (u - 1)) (rec_traj c sshape seed (u - 1))).logProb
            (rec_traj c sshape seed u)))).map Prod.fst)) =
      (List.range c.num_steps).map (rec_traj c sshape seed) := by
    rw [range_eq_cons_range' c.num_steps hn, List.map_cons, List.map_map]
    rfl
  have hsnd : (c.initial_state_prior.logProb
        (c.initial_state_prior.sample sshape (split_seed seed).1) ::
        (((List.range' 1 (c.num_steps - 1)).map (fun u => (rec_traj c sshape seed u,
          (c.transition_fn (idxScalar (u - 1)) (rec_traj c sshape seed (u - 1))).logProb
            (rec_traj c sshape seed u)))).map Prod.snd)) =
      rec_lps c sshape seed := by
    unfold rec_lps
    rw [List.map_map]
    rfl
  rw [List.map_cons, List.map_cons]
  show (List.zipWith (fun t ax => move_dimension t 0 ax) (stackStates (_ :: _)) (step_axes c), _) = _
  rw [hfst, hsnd]
  rfl

end AssemblyLemmas

section WitnessLemmas

lemma wit_contract_prior (sh : List ℕ) (s : ℕ) :
    wit_prior.sampleAndLogProb sh s =
      (wit_prior.sample sh s, wit_prior.logProb (wit_prior.sample sh s)) := rfl

lemma wit_contract_tr (i : Tensor) (st : State) (s : ℕ) :
    (wit_tr i st).sampleAndLogProb [] s =
      ((wit_tr i st).sample [] s, (wit_tr i st).logProb ((wit_tr i st).sample [] s)) := rfl

lemma wit_sample_wf (sh : List ℕ) (s : ℕ) : SliceWF [[]] (wit_prior.sample sh s) := by
  constructor
  · rfl
  · intro j hj
    have hj0 : j = 0 := by
      simp at hj
      exact hj
    subst hj0
    exact ⟨rfl, rfl⟩

lemma wit_prior_lp_hyp : PriorLpHyp wit_prior [[]] [] := by
  intro s hs
  obtain ⟨hlen, hj⟩ := hs
  have h0 := hj 0 (by simp)
  show (s.headD dT).shape = [] ∧ (s.headD dT).data.length = [].prod
  rw [← getD_zero_headD s dT]
  refine ⟨?_, ?_⟩
  · simpa using h0.1
  · simpa using h0.2

lemma wit_scalar_lp_hyp : ScalarLpHyp wit_tr [[]] [] := by
  intro t s w hs hw
  obtain ⟨hwlen, hwj⟩ := hw
  have h0 := hwj 0 (by simp)
  show (w.headD dT).shape = [] ∧ (w.headD dT).data.length = [].prod
  rw [← getD_zero_headD w dT]
  refine ⟨?_, ?_⟩
  · simpa using h0.1
  · simpa using h0.2

lemma wit_vec_hyp : VecHyp wit_tr [[]] [] := by
  intro k zs ws hzs hws
  obtain ⟨hwlen, hwj⟩ := hws
  cases ws with
  | nil => simp at hwlen
  | cons w rest =>
    have h0 := hwj 0 (by simp)
    simp only [List.getD_cons_zero] at h0
    have hwsh : w.shape = [k] := by simpa using h0.1
    have hwdl : w.data.length = k := by simpa using h0.2
    show (w :: rest).headD dT = _
    have hmap : ∀ t : ℕ, ((w :: rest).map (fun z => sliceAt0 z t)).headD dT = sliceAt0 w t := by
      intro t
      rfl
    have hrhs : (List.range k).map (fun t =>
          (wit_tr (idxScalar t) ((zs.map (fun z => sliceAt0 z t)))).logProb
            ((w :: rest).map (fun z => sliceAt0 z t))) =
        (List.range k).map (fun t => sliceAt0 w t) := by
      apply List.map_congr_left
      intro t htr
      exact hmap t
    rw [hrhs]
    have hslice : ∀ t, t < k → sliceAt0 w t = (⟨[], [w.data.getD t 0]⟩ : Tensor) := by
      intro t ht
      unfold sliceAt0
      rw [hwsh]
      apply tensor_ext
      · rfl
      · simp only [List.tail_cons, List.prod_nil, Nat.mul_one]
        exact take_one_drop w.data t (by omega)
    have hdata : (List.range k).map (fun t => sliceAt0 w t) =
        (List.range k).map (fun t => (⟨[], [w.data.getD t 0]⟩ : Tensor)) := by
      apply List.map_congr_left
      intro t htr
      exact hslice t (by simpa using htr)
    rw [hdata]
    unfold stackTsh
    apply tensor_ext
    · simp [hwsh]
    · show w.data = _
      simp only [List.map_map]
      have : ((List.range k).map ((fun e => Tensor.data e) ∘
            fun t => (⟨[], [w.data.getD t 0]⟩ : Tensor))) =
          (List.range k).map (fun t => [w.data.getD t 0]) := rfl
      rw [this, flatten_singletons (List.range k) (fun t => w.data.getD t 0)]
      rw [← hwdl]
      exact (getD_range_map_self w.data).symm

end WitnessLemmas

/-- C2: sample(sample_shape, seed) splits the seed into a prior seed and a
loop seed, draws the initial state from the prior with the prior seed,
then for each step t = 1 .. num_steps-1 splits the loop seed into a step
seed and a new loop seed and draws x_t from transition(t-1, x_(t-1)) with
the step seed; the per-step draws are stacked along a new leading axis per
leaf and that axis is moved to each leaf's step-axis position
-(1 + event rank): the scan-based sampler equals the spec's recurrence. -/
theorem C2_sampling_algorithm (c : MarkovChain) (sample_shape : List ℕ) (seed : ℕ)
    (hn : 1 ≤ c.num_steps) :
    sample_chain c sample_shape seed = sample_spec c sample_shape seed := by
  unfold sample_chain sample_spec
  simp only
  have hscan : scanResults (sample_loop_body c)
      ((split_seed seed).2, c.initial_state_prior.sample sample_shape (split_seed seed).1)
      (List.range' 1 (c.num_steps - 1)) =
      (List.range' 1 (c.num_steps - 1)).map (rec_traj c sample_shape seed) :=
    scan_sample_eq c sample_shape seed (c.num_steps - 1) 0
  rw [hscan, range_eq_cons_range' c.num_steps hn, List.map_cons]
  rfl

/-- Witness for C2 at a concrete three-step scalar chain. -/
theorem C2_sampling_algorithm_witness :
    sample_chain (wit_chain 3 false false) [] 7 = sample_spec (wit_chain 3 false false) [] 7 :=
  C2_sampling_algorithm (wit_chain 3 false false) [] 7 (by decide)

/-- C6: sampling is deterministic in the seed: identical seeds give
identical trajectories, and the sampled trajectory does not depend on the
summation or validation configuration flags (all state is the explicit
seed/state pair threaded through the pure recurrence). -/
theorem C6_seed_determinism (c : MarkovChain) (sample_shape : List ℕ)
    (seed1 seed2 : ℕ) (kahan validate : Bool) (h : seed1 = seed2) :
    sample_chain c sample_shape seed1 = sample_chain c sample_shape seed2 ∧
    sample_chain (MarkovChain.mk c.initial_state_prior c.transition_fn c.num_steps
      kahan validate) sample_shape seed1 = sample_chain c sample_shape seed1 := by
  subst h
  exact ⟨rfl, rfl⟩

/-- Witness for C6 at a concrete chain and seed. -/
theorem C6_seed_determinism_witness :
    sample_chain (wit_chain 3 false false) [] 7 = sample_chain (wit_chain 3 false false) [] 7 ∧
    sample_chain (MarkovChain.mk wit_prior wit_tr 3 true true) [] 7 =
      sample_chain (wit_chain 3 false false) [] 7 :=
  C6_seed_determinism (wit_chain 3 false false) [] 7 7 true true rfl

/-- C7: if the transition distribution's reduced log-prob shape disagrees
with the prior's, log_prob fails with a shape error rather than returning
a misshapen result (in this model all tensor shapes are static, so the
check is the hard static one and ignores the validation flag); and in the
static-shape helper, incompatibility of the known static shapes is a hard
error for any flag, while for compatible but not fully defined shapes the
dynamic comparison is emitted only when validation is on. -/
theorem C7_shape_error (c : MarkovChain) (x : State)
    (xs1 ys1 xs2 ys2 : OptShape) (xd yd : List ℕ) (v : Bool)
    (hmis : (log_prob_parts c x).1.shape ≠ (sum_fn c (log_prob_parts c x).2).shape)
    (h1 : shapesCompatible xs1 ys1 = false)
    (h2 : shapesCompatible xs2 ys2 = true)
    (h3 : ¬(shapeFullyDefined xs2 = true ∧ shapeFullyDefined ys2 = true)) :
    log_prob c x = Except.error
      "transition log_prob shape does not match prior log_prob shape" ∧
    assert_same_shape xs1 ys1 xd yd v = Except.error "Shapes do not match." ∧
    assert_same_shape xs2 ys2 xd yd false = Except.ok [] ∧
    assert_same_shape xs2 ys2 xd yd true = Except.ok [decide (xd = yd)] := by
  refine ⟨?_, ?_, ?_, ?_⟩
  · unfold log_prob
    simp only
    exact if_neg hmis
  · unfold assert_same_shape
    rw [if_pos h1]
  · unfold assert_same_shape
    rw [if_neg (by simp [h2]), if_neg (by simp)]
  · unfold assert_same_shape
    rw [if_neg (by simp [h2]), if_pos ⟨rfl, h3⟩]

/-- Witness for C7: a transition whose log-prob has batch shape [5]
against a scalar prior, plus concrete static shapes. -/
theorem C7_shape_error_witness :
    log_prob (MarkovChain.mk wit_prior wit_tr_bad 2 false false) wit_x2 =
      Except.error "transition log_prob shape does not match prior log_prob shape" ∧
    assert_same_shape (some [some 2]) (some [some 3]) [2] [3] true =
      Except.error "Shapes do not match." ∧
    assert_same_shape (some [some 2, none]) (some [some 2, some 4]) [2, 4] [2, 4] false =
      Except.ok [] ∧
    assert_same_shape (some [some 2, none]) (some [some 2, some 4]) [2, 4] [2, 4] true =
      Except.ok [decide ([2, 4] = [2, 4])] :=
  C7_shape_error (MarkovChain.mk wit_prior wit_tr_bad 2 false false) wit_x2
    (some [some 2]) (some [some 3]) (some [some 2, none]) (some [some 2, some 4])
    [2, 4] [2, 4] true (by decide) (by decide) (by decide) (by decide)

/-- C8 counterexample: with validation off (the default), constructing a
chain with num_steps = 0 raises no assertion at all, so the claim that
construction with num_steps < 1 is an error, unconditionally, is false. -/
theorem C8_counterexample : (wit_chain 0 false false).num_steps < 1 ∧
    parameter_control_dependencies (wit_chain 0 false false) true false = [] :=
  ⟨by decide, by decide⟩

/-- C8 amended: with validate_args enabled, constructing a chain with a
statically known num_steps < 1 (is_init true, the step count not a
deferred reference) yields a failing num_steps >= 1 assertion at
construction; with validate_args disabled no assertion is emitted. -/
theorem C8_invalid_step_count (c : MarkovChain) (hv : c.validate_args = true)
    (hns : c.num_steps < 1) :
    parameter_control_dependencies c true false = [false] ∧
    parameter_control_dependencies (MarkovChain.mk c.initial_state_prior c.transition_fn
      c.num_steps c.experimental_use_kahan_sum false) true false = [] := by
  constructor
  · unfold parameter_control_dependencies
    rw [hv]
    rw [if_neg (by simp)]
    rw [if_pos (by simp)]
    have hd : decide (1 ≤ c.num_steps) = false := decide_eq_false (by omega)
    rw [hd]
  · unfold parameter_control_dependencies
    simp

/-- Witness for C8's amended claim at a concrete chain. -/
theorem C8_invalid_step_count_witness :
    parameter_control_dependencies (wit_chain 0 false true) true false = [false] ∧
    parameter_control_dependencies (MarkovChain.mk wit_prior wit_tr 0 false false)
      true false = [] :=
  C8_invalid_step_count (wit_chain 0 false true) rfl (by decide)

lemma log_prob_single (c : MarkovChain) (x : State) (Sh : List (List ℕ)) (B : List ℕ)
    (hmv : MovedWF 1 Sh (movedLeaves c x))
    (hL : 0 < Sh.length)
    (hV : VecHyp c.transition_fn Sh B)
    (hS : ScalarLpHyp c.transition_fn Sh B)
    (hP : PriorLpHyp c.initial_state_prior Sh B) :
    log_prob c x = Except.ok (c.initial_state_prior.logProb (stepSlices c x 0)) := by
  have hcore := log_prob_core c x Sh B 1 hmv hL (by omega) hV hS hP
  rw [hcore]
  congr 1
  have hwf0 : SliceWF Sh (stepSlices c x 0) := by
    rw [stepSlices_eq]
    exact movedWF_slice 1 Sh _ hmv 0 (by omega)
  have hplp := hP (stepSlices c x 0) hwf0
  show tadd _ (sumTensors B []) = _
  exact tadd_sumTensors_nil _ B hplp.1 hplp.2

/-- C1: for every trajectory x with step-axis extent n, log_prob x equals
the prior's log_prob of the step-0 slice plus the elementwise sum over
t = 0 .. n-2 of transition(t, x_t).log_prob(x_(t+1)); the transition
log-densities come from the one vectorized transition call recorded in
log_prob_parts, whose step-index argument is tf.range(n-1) and whose
sliced state arguments carry a leading dimension of extent n-1. The
transition rule is assumed to satisfy the vectorization and batch-shape
contracts of the spec (VecHyp, ScalarLpHyp, PriorLpHyp). -/
theorem C1_log_prob_additive (c : MarkovChain) (x : State) (Ps : List (List ℕ))
    (B : List ℕ) (n : ℕ)
    (hPlen : Ps.length = c.initial_state_prior.event_shape.length)
    (hxlen : x.length = c.initial_state_prior.event_shape.length)
    (hL : 0 < c.initial_state_prior.event_shape.length)
    (hn : 1 ≤ n)
    (hx : ∀ j < c.initial_state_prior.event_shape.length,
      (x.getD j dT).shape =
        Ps.getD j [] ++ n :: c.initial_state_prior.event_shape.getD j [] ∧
      (x.getD j dT).data.length = (x.getD j dT).shape.prod)
    (hV : VecHyp c.transition_fn
      (List.zipWith (fun p e => p ++ e) Ps c.initial_state_prior.event_shape) B)
    (hS : ScalarLpHyp c.transition_fn
      (List.zipWith (fun p e => p ++ e) Ps c.initial_state_prior.event_shape) B)
    (hP : PriorLpHyp c.initial_state_prior
      (List.zipWith (fun p e => p ++ e) Ps c.initial_state_prior.event_shape) B) :
    log_prob c x = Except.ok (tadd
      (c.initial_state_prior.logProb (stepSlices c x 0))
      (sumTensors B ((List.range (n - 1)).map (fun t =>
        (c.transition_fn (idxScalar t) (stepSlices c x t)).logProb
          (stepSlices c x (t + 1)))))) ∧
    (log_prob_parts c x).2 =
      (c.transition_fn (idxRange (n - 1))
        ((movedLeaves c x).map (fun sp => slice0To sp (n - 1)))).logProb
        ((movedLeaves c x).map (fun sp => slice1To sp n)) ∧
    ∀ sp ∈ (movedLeaves c x).map (fun sp => slice0To sp (n - 1)),
      sp.shape.headD 0 = n - 1 := by
  have hmv := movedLeaves_wf c x Ps n hPlen hxlen hx
  have hLSh : 0 < (List.zipWith (fun p e => p ++ e) Ps
      c.initial_state_prior.event_shape).length := by
    rw [List.length_zipWith]
    omega
  refine ⟨log_prob_core c x _ B n hmv hLSh hn hV hS hP, ?_, ?_⟩
  · exact congrArg Prod.snd (log_prob_parts_eq c x _ n hmv hLSh)
  · intro sp hsp
    have hzs := movedWF_slice0To n _ _ hmv hn
    obtain ⟨j, hjS, hsh, hlen2⟩ := mem_moved_shape (n - 1) _ _ hzs sp hsp
    rw [hsh]
    rfl

/-- Witness for C1 at a concrete three-step scalar chain and trajectory. -/
theorem C1_log_prob_additive_witness :
    log_prob (wit_chain 3 false false) wit_x3 = Except.ok (tadd
      ((wit_chain 3 false false).initial_state_prior.logProb
        (stepSlices (wit_chain 3 false false) wit_x3 0))
      (sumTensors [] ((List.range (3 - 1)).map (fun t =>
        ((wit_chain 3 false false).transition_fn (idxScalar t)
          (stepSlices (wit_chain 3 false false) wit_x3 t)).logProb
          (stepSlices (wit_chain 3 false false) wit_x3 (t + 1)))))) ∧
    (log_prob_parts (wit_chain 3 false false) wit_x3).2 =
      ((wit_chain 3 false false).transition_fn (idxRange (3 - 1))
        ((movedLeaves (wit_chain 3 false false) wit_x3).map
          (fun sp => slice0To sp (3 - 1)))).logProb
        ((movedLeaves (wit_chain 3 false false) wit_x3).map (fun sp => slice1To sp 3)) ∧
    ∀ sp ∈ (movedLeaves (wit_chain 3 false false) wit_x3).map
        (fun sp => slice0To sp (3 - 1)),
      sp.shape.headD 0 = 3 - 1 :=
  C1_log_prob_additive (wit_chain 3 false false) wit_x3 [[]] [] 3
    (by decide) (by decide) (by decide) (by decide) (by decide)
    wit_vec_hyp wit_scalar_lp_hyp wit_prior_lp_hyp

/-- C10: for a trajectory of step-axis extent 1, the parts computation
still makes exactly one transition call, whose step-index argument is the
empty range tf.range(0) and whose sliced state arguments have extent 0
along the leading axis and empty data; the empty reduction contributes
zero, so log_prob returns exactly the prior log-prob. -/
theorem C10_empty_vectorized_call (c : MarkovChain) (x : State)
    (Sh : List (List ℕ)) (B : List ℕ)
    (hmv : MovedWF 1 Sh (movedLeaves c x))
    (hL : 0 < Sh.length)
    (hV : VecHyp c.transition_fn Sh B)
    (hS : ScalarLpHyp c.transition_fn Sh B)
    (hP : PriorLpHyp c.initial_state_prior Sh B) :
    (log_prob_parts c x).2 =
      (c.transition_fn (idxRange 0)
        ((movedLeaves c x).map (fun sp => slice0To sp 0))).logProb
        ((movedLeaves c x).map (fun sp => slice1To sp 1)) ∧
    (∀ sp ∈ (movedLeaves c x).map (fun sp => slice0To sp 0),
      sp.shape.headD 0 = 0 ∧ sp.data = []) ∧
    log_prob c x = Except.ok (c.initial_state_prior.logProb (stepSlices c x 0)) := by
  refine ⟨?_, ?_, ?_⟩
  · exact congrArg Prod.snd (log_prob_parts_eq c x Sh 1 hmv hL)
  · intro sp hsp
    obtain ⟨sp0, hsp0, rfl⟩ := List.mem_map.mp hsp
    constructor
    · show (min 0 (sp0.shape.headD 0) :: sp0.shape.tail).headD 0 = 0
      simp
    · show sp0.data.take (0 * sp0.shape.tail.prod) = []
      simp
  · exact log_prob_single c x Sh B hmv hL hV hS hP

/-- Witness for C10 at a concrete one-step scalar chain. -/
theorem C10_empty_vectorized_call_witness :
    (log_prob_parts (wit_chain 1 false false) wit_x1).2 =
      ((wit_chain 1 false false).transition_fn (idxRange 0)
        ((movedLeaves (wit_chain 1 false false) wit_x1).map
          (fun sp => slice0To sp 0))).logProb
        ((movedLeaves (wit_chain 1 false false) wit_x1).map (fun sp => slice1To sp 1)) ∧
    (∀ sp ∈ (movedLeaves (wit_chain 1 false false) wit_x1).map (fun sp => slice0To sp 0),
      sp.shape.headD 0 = 0 ∧ sp.data = []) ∧
    log_prob (wit_chain 1 false false) wit_x1 =
      Except.ok ((wit_chain 1 false false).initial_state_prior.logProb
        (stepSlices (wit_chain 1 false false) wit_x1 0)) :=
  C10_empty_vectorized_call (wit_chain 1 false false) wit_x1 [[]] []
    (by decide) (by decide) wit_vec_hyp wit_scalar_lp_hyp wit_prior_lp_hyp

lemma getElem_eq_getD {α : Type} (l : List α) (i : ℕ) (h : i < l.length) (d : α) :
    l[i] = l.getD i d := by
  simp [List.getD_eq_getElem?_getD, List.getElem?_eq_getElem h]

/-- C5: when num_steps = 1 the chain is the prior: the sampling recurrence
performs zero iterations (the scan runs over an empty step range, so the
trajectory is the stacked singleton prior draw), the sampled leaves carry
exactly the prior draw's data (only a unit step axis is inserted at the
step position), and log_prob of a length-1 trajectory is exactly the
prior's log_prob of its single step slice. -/
theorem C5_num_steps_one (c : MarkovChain) (sample_shape : List ℕ) (seed : ℕ) (x : State)
    (Sh : List (List ℕ)) (B : List ℕ)
    (hn1 : c.num_steps = 1)
    (hL : 0 < Sh.length)
    (hlenE : c.initial_state_prior.event_shape.length = Sh.length)
    (hndl : ∀ j < Sh.length,
      (c.initial_state_prior.event_shape.getD j []).length ≤ (Sh.getD j []).length)
    (hPs : ∀ s, SliceWF Sh (c.initial_state_prior.sample sample_shape s))
    (hmv : MovedWF 1 Sh (movedLeaves c x))
    (hV : VecHyp c.transition_fn Sh B)
    (hS : ScalarLpHyp c.transition_fn Sh B)
    (hP : PriorLpHyp c.initial_state_prior Sh B) :
    sample_chain c sample_shape seed =
      List.zipWith (fun t ax => move_dimension t 0 ax)
        (stackStates [c.initial_state_prior.sample sample_shape (split_seed seed).1])
        (step_axes c) ∧
    (sample_chain c sample_shape seed).map Tensor.data =
      (c.initial_state_prior.sample sample_shape (split_seed seed).1).map Tensor.data ∧
    log_prob c x = Except.ok (c.initial_state_prior.logProb (stepSlices c x 0)) := by
  have hx0 := hPs (split_seed seed).1
  have hc1 : sample_chain c sample_shape seed =
      List.zipWith (fun t ax => move_dimension t 0 ax)
        (stackStates [c.initial_state_prior.sample sample_shape (split_seed seed).1])
        (step_axes c) := by
    unfold sample_chain
    rw [hn1]
    rfl
  refine ⟨hc1, ?_, log_prob_single c x Sh B hmv hL hV hS hP⟩
  rw [hc1]
  obtain ⟨hx0len, hx0j⟩ := hx0
  have hstlen : (stackStates [c.initial_state_prior.sample sample_shape
      (split_seed seed).1]).length =
      (c.initial_state_prior.sample sample_shape (split_seed seed).1).length := by
    unfold stackStates
    simp
  have haxlen : (step_axes c).length = Sh.length := by
    rw [step_axes_len, hlenE]
  apply List.ext_getElem
  · simp only [List.length_map, List.length_zipWith]
    rw [hstlen, haxlen, hx0len]
    simp
  · intro j h1 h2
    have hj : j < Sh.length := by
      simp only [List.length_map] at h2
      omega
    have hjx0 : j < (c.initial_state_prior.sample sample_shape (split_seed seed).1).length := by
      omega
    have hjax : j < (step_axes c).length := by omega
    have hjst : j < (stackStates [c.initial_state_prior.sample sample_shape
        (split_seed seed).1]).length := by
      rw [hstlen]
      omega
    rw [List.getElem_map, List.getElem_map, List.getElem_zipWith]
    rw [getElem_eq_getD (stackStates [c.initial_state_prior.sample sample_shape
      (split_seed seed).1]) j hjst dT]
    rw [getElem_eq_getD (step_axes c) j hjax 0]
    rw [getElem_eq_getD (c.initial_state_prior.sample sample_shape (split_seed seed).1)
      j hjx0 dT]
    have hsg : (stackStates [c.initial_state_prior.sample sample_shape
        (split_seed seed).1]).getD j dT =
        stackTsh (Sh.getD j [])
          ([c.initial_state_prior.sample sample_shape (split_seed seed).1].map
            (fun st => st.getD j dT)) := by
      apply stackStates_getD
      · simp
      · intro st hst
        have : st = c.initial_state_prior.sample sample_shape (split_seed seed).1 := by
          simpa using hst
        subst this
        exact hPs _
      · exact hj
    rw [hsg, step_axes_getD c j (by omega)]
    obtain ⟨hshj, hlenj⟩ := hx0j j hj
    have hstk : stackTsh (Sh.getD j [])
        ([c.initial_state_prior.sample sample_shape (split_seed seed).1].map
          (fun st => st.getD j dT)) =
        (⟨1 :: Sh.getD j [],
          ((c.initial_state_prior.sample sample_shape (split_seed seed).1).getD j dT).data⟩ :
            Tensor) := by
      unfold stackTsh
      apply tensor_ext
      · rfl
      · simp
    rw [hstk]
    have hrank : ((⟨1 :: Sh.getD j [],
        ((c.initial_state_prior.sample sample_shape (split_seed seed).1).getD j dT).data⟩ :
          Tensor)).shape.length = (Sh.getD j []).length + 1 := by
      simp
    rw [move_dimension_to_back _ ((c.initial_state_prior.event_shape.getD j []).length)
      (by rw [hrank]; have := hndl j hj; omega)]
    have hkk : ((⟨1 :: Sh.getD j [],
        ((c.initial_state_prior.sample sample_shape (split_seed seed).1).getD j dT).data⟩ :
          Tensor)).shape.length - 1 - (c.initial_state_prior.event_shape.getD j []).length =
        (Sh.getD j []).length - (c.initial_state_prior.event_shape.getD j []).length := by
      rw [hrank]
      omega
    rw [hkk]
    have hwfu : ((⟨1 :: Sh.getD j [],
        ((c.initial_state_prior.sample sample_shape (split_seed seed).1).getD j dT).data⟩ :
          Tensor)).data.length =
        ((⟨1 :: Sh.getD j [],
          ((c.initial_state_prior.sample sample_shape (split_seed seed).1).getD j dT).data⟩ :
            Tensor)).shape.prod := by
      show _ = (1 :: Sh.getD j []).prod
      simp only [List.prod_cons, Nat.one_mul]
      exact hlenj
    rw [moveDim0To_unit _ (Sh.getD j [])
      ((Sh.getD j []).length - (c.initial_state_prior.event_shape.getD j []).length) rfl
      hwfu (by omega)]

/-- Witness for C5 at a concrete one-step scalar chain. -/
theorem C5_num_steps_one_witness :
    sample_chain (wit_chain 1 false false) [] 7 =
      List.zipWith (fun t ax => move_dimension t 0 ax)
        (stackStates [(wit_chain 1 false false).initial_state_prior.sample []
          (split_seed 7).1])
        (step_axes (wit_chain 1 false false)) ∧
    (sample_chain (wit_chain 1 false false) [] 7).map Tensor.data =
      ((wit_chain 1 false false).initial_state_prior.sample [] (split_seed 7).1).map
        Tensor.data ∧
    log_prob (wit_chain 1 false false) wit_x1 =
      Except.ok ((wit_chain 1 false false).initial_state_prior.logProb
        (stepSlices (wit_chain 1 false false) wit_x1 0)) :=
  C5_num_steps_one (wit_chain 1 false false) [] 7 wit_x1 [[]] [] rfl (by decide) (by decide)
    (by decide) (fun s => wit_sample_wf [] s) (by decide) wit_vec_hyp wit_scalar_lp_hyp
    wit_prior_lp_hyp

/-- C9: log_prob reads the number of steps from the trajectory itself (the
step-axis extent of the first flattened leaf) and never consults the
chain's configured num_steps: replacing num_steps changes nothing; a
trajectory of extent n differing from num_steps is evaluated without
error as a length-n chain; and the per-leaf extent-equals-num_steps
assertions exist only under validation. -/
theorem C9_steps_from_input (c : MarkovChain) (x : State) (k2 : ℕ)
    (Ps : List (List ℕ)) (B : List ℕ) (n : ℕ)
    (hPlen : Ps.length = c.initial_state_prior.event_shape.length)
    (hxlen : x.length = c.initial_state_prior.event_shape.length)
    (hL : 0 < c.initial_state_prior.event_shape.length)
    (hn : 1 ≤ n)
    (hne : n ≠ c.num_steps)
    (hx : ∀ j < c.initial_state_prior.event_shape.length,
      (x.getD j dT).shape =
        Ps.getD j [] ++ n :: c.initial_state_prior.event_shape.getD j [] ∧
      (x.getD j dT).data.length = (x.getD j dT).shape.prod)
    (hV : VecHyp c.transition_fn
      (List.zipWith (fun p e => p ++ e) Ps c.initial_state_prior.event_shape) B)
    (hS : ScalarLpHyp c.transition_fn
      (List.zipWith (fun p e => p ++ e) Ps c.initial_state_prior.event_shape) B)
    (hP : PriorLpHyp c.initial_state_prior
      (List.zipWith (fun p e => p ++ e) Ps c.initial_state_prior.event_shape) B) :
    log_prob c x = log_prob (MarkovChain.mk c.initial_state_prior c.transition_fn k2
      c.experimental_use_kahan_sum c.validate_args) x ∧
    log_prob c x = Except.ok (tadd
      (c.initial_state_prior.logProb (stepSlices c x 0))
      (sumTensors B ((List.range (n - 1)).map (fun t =>
        (c.transition_fn (idxScalar t) (stepSlices c x t)).logProb
          (stepSlices c x (t + 1)))))) ∧
    (c.validate_args = false → sample_control_dependencies c x = []) ∧
    (c.validate_args = true → sample_control_dependencies c x =
      List.replicate x.length (decide (n = c.num_steps))) := by
  have hmv := movedLeaves_wf c x Ps n hPlen hxlen hx
  have hLSh : 0 < (List.zipWith (fun p e => p ++ e) Ps
      c.initial_state_prior.event_shape).length := by
    rw [List.length_zipWith]
    omega
  refine ⟨rfl, log_prob_core c x _ B n hmv hLSh hn hV hS hP, ?_, ?_⟩
  · intro hval
    unfold sample_control_dependencies
    rw [hval]
    simp
  · intro hval
    unfold sample_control_dependencies
    rw [hval]
    rw [if_neg (by simp)]
    have haxlen : (step_axes c).length = x.length := by
      rw [step_axes_len, hxlen]
    apply List.ext_getElem
    · simp only [List.length_zipWith, List.length_replicate, haxlen]
      omega
    · intro j h1 h2
      have hj : j < x.length := by
        simpa using h2
      have hjE : j < c.initial_state_prior.event_shape.length := by omega
      rw [List.getElem_zipWith, List.getElem_replicate]
      rw [getElem_eq_getD x j hj dT, getElem_eq_getD (step_axes c) j (by omega) 0]
      rw [step_axes_getD c j hjE]
      obtain ⟨hsh, hdl⟩ := hx j hjE
      have hrank : (x.getD j dT).shape.length = (Ps.getD j []).length + 1 +
          (c.initial_state_prior.event_shape.getD j []).length := by
        rw [hsh]
        simp
        omega
      have hres : resolveIdx (x.getD j dT).shape.length
          (-(1 + ((c.initial_state_prior.event_shape.getD j []).length : ℤ))) =
          (Ps.getD j []).length := by
        unfold resolveIdx
        omega
      rw [hres, hsh, getD_append_len]

/-- Witness for C9: a length-3 trajectory evaluated by a chain configured
with num_steps = 5. -/
theorem C9_steps_from_input_witness :
    log_prob (wit_chain 5 false false) wit_x3 =
      log_prob (MarkovChain.mk (wit_chain 5 false false).initial_state_prior
        (wit_chain 5 false false).transition_fn 11
        (wit_chain 5 false false).experimental_use_kahan_sum
        (wit_chain 5 false false).validate_args) wit_x3 ∧
    log_prob (wit_chain 5 false false) wit_x3 = Except.ok (tadd
      ((wit_chain 5 false false).initial_state_prior.logProb
        (stepSlices (wit_chain 5 false false) wit_x3 0))
      (sumTensors [] ((List.range (3 - 1)).map (fun t =>
        ((wit_chain 5 false false).transition_fn (idxScalar t)
          (stepSlices (wit_chain 5 false false) wit_x3 t)).logProb
          (stepSlices (wit_chain 5 false false) wit_x3 (t + 1)))))) ∧
    ((wit_chain 5 false false).validate_args = false →
      sample_control_dependencies (wit_chain 5 false false) wit_x3 = []) ∧
    ((wit_chain 5 false false).validate_args = true →
      sample_control_dependencies (wit_chain 5 false false) wit_x3 =
        List.replicate wit_x3.length (decide (3 = (wit_chain 5 false false).num_steps))) :=
  C9_steps_from_input (wit_chain 5 false false) wit_x3 11 [[]] [] 3
    (by decide) (by decide) (by decide) (by decide) (by decide) (by decide)
    wit_vec_hyp wit_scalar_lp_hyp wit_prior_lp_hyp

lemma reduceSum0_len (t : Tensor) : (reduceSum0 t).data.length = t.shape.tail.prod := by
  simp [reduceSum0]

/-- C3: for chains p, q sharing structure, log_prob_ratio(p, x, q, y)
equals log_prob(p, x) - log_prob(q, y) exactly (in this exact-arithmetic
model the floating tolerance is equality); it is computed by subtracting
the decomposed (prior_lp, transition_lp) parts before the single
reduction over the step axis, and that reduction is Kahan-compensated
whenever at least one of p, q was constructed with the compensated-sum
flag. -/
theorem C3_log_prob_ratio (p : MarkovChain) (x : State) (q : MarkovChain) (y : State)
    (k : ℕ) (B : List ℕ)
    (hp1 : (log_prob_parts p x).1.shape = B)
    (hp1l : (log_prob_parts p x).1.data.length = B.prod)
    (hq1 : (log_prob_parts q y).1.shape = B)
    (hq1l : (log_prob_parts q y).1.data.length = B.prod)
    (hp2 : (log_prob_parts p x).2.shape = k :: B)
    (hp2l : (log_prob_parts p x).2.data.length = k * B.prod)
    (hq2 : (log_prob_parts q y).2.shape = k :: B)
    (hq2l : (log_prob_parts q y).2.data.length = k * B.prod) :
    (∃ a b, log_prob p x = Except.ok a ∧ log_prob q y = Except.ok b ∧
      markov_chain_log_prob_ratio p x q y = tsub a b) ∧
    ((p.experimental_use_kahan_sum || q.experimental_use_kahan_sum) = true →
      markov_chain_log_prob_ratio p x q y =
        tadd (tsub (log_prob_parts p x).1 (log_prob_parts q y).1)
          (reduceKahan0 (tsub (log_prob_parts p x).2 (log_prob_parts q y).2))) := by
  constructor
  · refine ⟨tadd (log_prob_parts p x).1 (sum_fn p (log_prob_parts p x).2),
      tadd (log_prob_parts q y).1 (sum_fn q (log_prob_parts q y).2), ?_, ?_, ?_⟩
    · unfold log_prob
      simp only
      rw [if_pos]
      rw [sum_fn_eq]
      show _ = (log_prob_parts p x).2.shape.tail
      rw [hp1, hp2]
      rfl
    · unfold log_prob
      simp only
      rw [if_pos]
      rw [sum_fn_eq]
      show _ = (log_prob_parts q y).2.shape.tail
      rw [hq1, hq2]
      rfl
    · unfold markov_chain_log_prob_ratio
      simp only
      have hcommon : tadd (tsub (log_prob_parts p x).1 (log_prob_parts q y).1)
          (reduceSum0 (tsub (log_prob_parts p x).2 (log_prob_parts q y).2)) =
          tsub (tadd (log_prob_parts p x).1 (sum_fn p (log_prob_parts p x).2))
            (tadd (log_prob_parts q y).1 (sum_fn q (log_prob_parts q y).2)) := by
        rw [sum_fn_eq, sum_fn_eq,
          reduceSum0_tsub (log_prob_parts p x).2 (log_prob_parts q y).2 k B hp2 hq2 hp2l hq2l]
        apply tadd_tsub_shuffle
        · rw [hp1l, hq1l]
        · rw [hp1l, reduceSum0_len, hp2]
          rfl
        · rw [hp1l, reduceSum0_len, hq2]
          rfl
        · rw [hp1, hq1]
      split_ifs with hb
      · rw [reduceKahan0_eq]
        exact hcommon
      · exact hcommon
  · intro hb
    unfold markov_chain_log_prob_ratio
    simp only
    rw [if_pos hb]

/-- Witness for C3: a Kahan-flagged chain against a plain one on concrete
length-3 trajectories. -/
theorem C3_log_prob_ratio_witness :
    (∃ a b, log_prob (wit_chain 3 true false) wit_x3 = Except.ok a ∧
      log_prob (wit_chain 3 false false) wit_y3 = Except.ok b ∧
      markov_chain_log_prob_ratio (wit_chain 3 true false) wit_x3
        (wit_chain 3 false false) wit_y3 = tsub a b) ∧
    (((wit_chain 3 true false).experimental_use_kahan_sum ||
        (wit_chain 3 false false).experimental_use_kahan_sum) = true →
      markov_chain_log_prob_ratio (wit_chain 3 true false) wit_x3
          (wit_chain 3 false false) wit_y3 =
        tadd (tsub (log_prob_parts (wit_chain 3 true false) wit_x3).1
            (log_prob_parts (wit_chain 3 false false) wit_y3).1)
          (reduceKahan0 (tsub (log_prob_parts (wit_chain 3 true false) wit_x3).2
            (log_prob_parts (wit_chain 3 false false) wit_y3).2))) :=
  C3_log_prob_ratio (wit_chain 3 true false) wit_x3 (wit_chain 3 false false) wit_y3 2 []
    (by decide) (by decide) (by decide) (by decide) (by decide) (by decide) (by decide)
    (by decide)

/-- C4: the log-density returned by the joint sample-and-log-prob path
equals log_prob applied to the trajectory realized by that same call
(exactly, in this exact-arithmetic model), given the collaborator
contracts: the prior and transition distributions' combined
sample-and-log-prob agrees with their sample and log_prob, samples have
the declared leaf shapes, and the transition satisfies the vectorization
and batch-shape contracts. -/
theorem C4_sample_and_log_prob_consistent (c : MarkovChain) (sshape : List ℕ) (seed : ℕ)
    (Sh : List (List ℕ)) (B : List ℕ)
    (hlenE : c.initial_state_prior.event_shape.length = Sh.length)
    (hndl : ∀ j < Sh.length,
      (c.initial_state_prior.event_shape.getD j []).length ≤ (Sh.getD j []).length)
    (hL : 0 < Sh.length)
    (hn : 1 ≤ c.num_steps)
    (hPs : ∀ s, SliceWF Sh (c.initial_state_prior.sample sshape s))
    (hTs : ∀ (i : Tensor) (st : State) (s : ℕ),
      SliceWF Sh ((c.transition_fn i st).sample [] s))
    (hPc : ∀ s, c.initial_state_prior.sampleAndLogProb sshape s =
      (c.initial_state_prior.sample sshape s,
       c.initial_state_prior.logProb (c.initial_state_prior.sample sshape s)))
    (hTc : ∀ (i : Tensor) (st : State) (s : ℕ),
      (c.transition_fn i st).sampleAndLogProb [] s =
        ((c.transition_fn i st).sample [] s,
         (c.transition_fn i st).logProb ((c.transition_fn i st).sample [] s)))
    (hV : VecHyp c.transition_fn Sh B)
    (hS : ScalarLpHyp c.transition_fn Sh B)
    (hP : PriorLpHyp c.initial_state_prior Sh B) :
    log_prob c (sample_and_log_prob c sshape seed).1 =
      Except.ok (sample_and_log_prob c sshape seed).2 := by
  have hsalp := salp_eq c sshape seed hn (hPc _) hTc
  rw [hsalp]
  have htrajne : (List.range c.num_steps).map (rec_traj c sshape seed) ≠ [] := by
    simp
    omega
  have htrajwf : ∀ s ∈ (List.range c.num_steps).map (rec_traj c sshape seed),
      SliceWF Sh s := by
    intro s hs
    obtain ⟨u, hu, rfl⟩ := List.mem_map.mp hs
    exact rec_traj_wf c sshape seed Sh hPs hTs u
  have hlen : ((List.range c.num_steps).map (rec_traj c sshape seed)).length =
      c.num_steps := by
    simp
  have hstk := stackStates_wf _ Sh htrajne htrajwf
  rw [hlen] at hstk
  have hmoved : movedLeaves c (sample_spec c sshape seed) =
      stackStates ((List.range c.num_steps).map (rec_traj c sshape seed)) := by
    unfold sample_spec
    apply movedLeaves_roundtrip
    · rw [hstk.1, step_axes_len, hlenE]
    · intro j hj
      have hjS : j < Sh.length := by
        rw [hstk.1] at hj
        exact hj
      obtain ⟨hsh, hdl⟩ := hstk.2 j hjS
      refine ⟨c.num_steps, Sh.getD j [], hsh, hndl j hjS, ?_⟩
      rw [hdl, hsh, List.prod_cons]
  have hmv : MovedWF c.num_steps Sh (movedLeaves c (sample_spec c sshape seed)) := by
    rw [hmoved]
    exact hstk
  have hcore := log_prob_core c (sample_spec c sshape seed) Sh B c.num_steps hmv hL hn hV hS hP
  rw [hcore]
  have hslice : ∀ t, t < c.num_steps →
      stepSlices c (sample_spec c sshape seed) t = rec_traj c sshape seed t := by
    intro t ht
    rw [stepSlices_eq, hmoved, stackStates_slice _ Sh htrajne htrajwf t
      (by rw [hlen]; exact ht)]
    exact getD_map_range (rec_traj c sshape seed) c.num_steps t ht []
  rw [hslice 0 (by omega)]
  have hlist : (List.range (c.num_steps - 1)).map (fun t =>
      (c.transition_fn (idxScalar t) (stepSlices c (sample_spec c sshape seed) t)).logProb
        (stepSlices c (sample_spec c sshape seed) (t + 1))) =
      (List.range (c.num_steps - 1)).map (fun t =>
      (c.transition_fn (idxScalar t) (rec_traj c sshape seed t)).logProb
        (rec_traj c sshape seed (t + 1))) := by
    apply List.map_congr_left
    intro t htr
    have ht : t < c.num_steps - 1 := by simpa using htr
    rw [hslice t (by omega), hslice (t + 1) (by omega)]
  rw [hlist]
  have hlp0 := hP (rec_traj c sshape seed 0) (rec_traj_wf c sshape seed Sh hPs hTs 0)
  have hlpselem : ∀ e ∈ rec_lps c sshape seed, e.shape = B ∧ e.data.length = B.prod := by
    intro e he
    unfold rec_lps at he
    rcases List.mem_cons.mp he with he0 | hetail
    · subst he0
      exact hlp0
    · obtain ⟨u, hu, rfl⟩ := List.mem_map.mp hetail
      exact hS (u - 1) _ _ (rec_traj_wf c sshape seed Sh hPs hTs (u - 1))
        (rec_traj_wf c sshape seed Sh hPs hTs u)
  have hstack : stackT (rec_lps c sshape seed) = stackTsh B (rec_lps c sshape seed) := by
    apply stackT_eq_stackTsh
    · unfold rec_lps
      simp
    · intro e he
      exact (hlpselem e he).1
  rw [sum_fn_eq, hstack, reduceSum0_stackTsh B _ (fun e he => (hlpselem e he).2)]
  show _ = Except.ok (sumTensors B (rec_lps c sshape seed))
  unfold rec_lps
  rw [sumTensors_cons B _ _ hlp0.1 hlp0.2]
  have hlist2 : (List.range (c.num_steps - 1)).map (fun t =>
      (c.transition_fn (idxScalar t) (rec_traj c sshape seed t)).logProb
        (rec_traj c sshape seed (t + 1))) =
      (List.range' 1 (c.num_steps - 1)).map (fun u =>
      (c.transition_fn (idxScalar (u - 1)) (rec_traj c sshape seed (u - 1))).logProb
        (rec_traj c sshape seed u)) := by
    rw [List.range'_eq_map_range, List.map_map]
    apply List.map_congr_left
    intro t htr
    simp only [Function.comp]
    have h1 : 1 + t - 1 = t := by omega
    have h2 : 1 + t = t + 1 := by omega
    rw [h1, h2]
  rw [hlist2]

/-- Witness for C4 at a concrete three-step scalar chain. -/
theorem C4_sample_and_log_prob_consistent_witness :
    log_prob (wit_chain 3 false false) (sample_and_log_prob (wit_chain 3 false false) [] 7).1 =
      Except.ok (sample_and_log_prob (wit_chain 3 false false) [] 7).2 :=
  C4_sample_and_log_prob_consistent (wit_chain 3 false false) [] 7 [[]] []
    (by decide) (by decide) (by decide) (by decide)
    (fun s => wit_sample_wf [] s) (fun i st s => wit_sample_wf [] s)
    (fun s => wit_contract_prior [] s) wit_contract_tr
    wit_vec_hyp wit_scalar_lp_hyp wit_prior_lp_hyp
